import Mathlib

/-!
Verification of the parallel directory-scan core (`FreeFileSync/Source/lib/parallel_scan.cpp`).

The development shallowly embeds the scan core: paths are `String`s, the
per-base snapshot (`FolderContainer`, `DirectoryValue`) and the traversal
callbacks (`onFile`, `onFolder`, `onSymlink`, `reportDirError`,
`reportItemError`) are pure functions over an explicit `ScanState`, and the
dispatcher `fillBuffer` is a pure function from the requested keys and a
filesystem environment to the output map together with the observable trace of
observer calls.  The external traversal primitive
(`AFS::traverseFolderParallel`) is modelled from the spec as a recursive driver
over an inductive filesystem description; threading is modelled by sequential
interleaving, which suffices for the functional claims settled here.
-/

namespace FFS

/-! ## String utilities (zen string tools used by parallel_scan.cpp) -/

/-- FILE_NAME_SEPARATOR of the platform, modelled as the forward slash. -/
def sepChar : Char := '/'

/-- FILE_NAME_SEPARATOR as a one-character string. -/
def sepS : String := "/"

/-- Modelled from the spec: `zen::endsWith` (suffix test on strings), used by
`DirCallback::onFile` to skip database and lock files. -/
def zendsWith (s sfx : String) : Bool := sfx.data.isSuffixOf s.data

/-- Core of `zen::beforeLast(s, FILE_NAME_SEPARATOR, IF_MISSING_RETURN_NONE)`:
everything before the last occurrence of `c`, and `[]` when `c` is missing. -/
def beforeLastChar (c : Char) : List Char → List Char
  | [] => []
  | a :: rest => if c ∈ rest then a :: beforeLastChar c rest else []

/-- Modelled from the spec: `zen::beforeLast(s, FILE_NAME_SEPARATOR,
IF_MISSING_RETURN_NONE)` — the portion of `s` before the final separator,
returning the empty string when no separator occurs. -/
def beforeLastSep (s : String) : String := ⟨beforeLastChar sepChar s.data⟩

/-- Decides that a character list avoids the file-name separator. -/
def sepFree : List Char → Bool
  | [] => true
  | a :: rest => (a != sepChar) && sepFree rest

/-- A well-formed item name: nonempty and separator-free (true of every name an
actual filesystem enumeration can deliver). -/
def goodName (n : String) : Bool := sepFree n.data && !n.data.isEmpty

/-- Joins path components into a separator-postfixed relative prefix, the shape
`DirCallback` maintains for `parentRelPathPf_`. -/
def joinComps : List String → String
  | [] => ""
  | x :: rest => x ++ sepS ++ joinComps rest

/-! ## Snapshot model (`FolderContainer`, `DirectoryValue`)

`FolderContainer` lives in `structure.h`, outside the given sources; it is
modelled from the spec: an ordered mapping of child name to file record,
symlink record, or sub-folder node (with a "reached via symlink" flag). -/

/-- FileAttributes: modification time, byte size, native file id, and the
"reached through a symlink" flag (`fi.symlinkInfo != nullptr`). -/
structure FileAttributes where
  modTime : Int
  fileSize : Nat
  fileId : Nat
  isFollowedSymlink : Bool
deriving DecidableEq

/-- LinkAttributes: modification time only. -/
structure LinkAttributes where
  modTime : Int
deriving DecidableEq

/-- Modelled from the spec: the tree node of the snapshot.  Children are kept
as association lists in insertion order. -/
inductive FolderContainer : Type where
  | mk (files : List (String × FileAttributes))
       (symlinks : List (String × LinkAttributes))
       (folders : List (String × Bool × FolderContainer)) : FolderContainer

/-- The empty folder node. -/
def FolderContainer.empty : FolderContainer := .mk [] [] []

/-- Modelled from the spec: `FolderContainer::addSubFile`. -/
def FolderContainer.addSubFile : FolderContainer → String → FileAttributes → FolderContainer
  | .mk fs ls ds, n, a => .mk (fs ++ [(n, a)]) ls ds

/-- Modelled from the spec: `FolderContainer::addSubLink`. -/
def FolderContainer.addSubLink : FolderContainer → String → LinkAttributes → FolderContainer
  | .mk fs ls ds, n, a => .mk fs (ls ++ [(n, a)]) ds

/-- Modelled from the spec: `FolderContainer::addSubFolder` (the new node
carries the "reached via symlink" flag and the given contents). -/
def FolderContainer.addSubFolder : FolderContainer → String → Bool → FolderContainer → FolderContainer
  | .mk fs ls ds, n, sym, sub => .mk fs ls (ds ++ [(n, sym, sub)])

/-- DirectoryValue: per-base output — root folder tree plus the two error maps
keyed by relative path. -/
structure DirectoryValue where
  folderCont : FolderContainer
  failedFolderReads : List (String × String)
  failedItemReads : List (String × String)

/-- The pre-inserted placeholder `DirectoryValue{}`. -/
def DirectoryValue.empty : DirectoryValue := ⟨FolderContainer.empty, [], []⟩

/-! ## Scan request identity -/

/-- Modelled from the spec: an abstract folder path, already decomposed by
`AFS::getPathComponents` into root device path and relative components. -/
structure AbstractPath where
  rootPath : String
  relPath : List String
deriving DecidableEq

/-- Display rendering of an abstract path (`AFS::getDisplayPath`), modelled as
root plus separator-joined components. -/
def AbstractPath.display (p : AbstractPath) : String :=
  p.rootPath ++ String.join (p.relPath.map (fun c => sepS ++ c))

/-- SymLinkHandling: the three symlink modes of the traversal configuration. -/
inductive SymLinkHandling : Type where
  | exclude | direct | follow
deriving DecidableEq

/-- DirectoryKey: identity of one scan request; equality is by all three
fields.  The filter handle (`HardFilter::FilterRef`) is represented by an
identifier resolved through a filter environment, so that keys stay
decidably comparable as in the C++ `std::set<DirectoryKey>`. -/
structure DirectoryKey where
  folderPath : AbstractPath
  filterId : Nat
  handleSymlinks : SymLinkHandling
deriving DecidableEq

/-- Modelled from the spec: the provided filter predicate —
`passFileFilter(relPath)` and `passDirFilter(relPath, &childItemMightMatch)`
(the second component of the pair is `childItemMightMatch`). -/
structure HardFilterModel where
  passFileFilter : String → Bool
  passDirFilter : String → Bool × Bool

/-! ## Error negotiation (AsyncCallback request channel) -/

/-- FillBufferCallback::HandleError — the observer's decision. -/
inductive HandleError : Type where
  | onErrorRetry | onErrorContinue
deriving DecidableEq

/-- AFS::TraverserCallback::HandleLink — decision for a symlink entry. -/
inductive HandleLink : Type where
  | linkSkip | linkFollow
deriving DecidableEq

/-- Worker-visible scan state threaded through the traversal callbacks:
the two per-base error maps referenced by `TraverserConfig`, the shared
`itemsScanned_` counter, and the log of `AsyncCallback::reportError` round
trips (message and retry number) used to model the observer trace. -/
structure ScanState where
  failedDirReads : List (String × String)
  failedItemReads : List (String × String)
  itemsScanned : Nat
  errorLog : List (String × Nat)
deriving DecidableEq

/-- The all-empty initial scan state. -/
def ScanState.empty : ScanState := ⟨[], [], 0, []⟩

/-- Ordered-map overwrite-or-append (`std::map::operator[] =`): the key is
bound to the latest message. -/
def mapSet : List (String × String) → String → String → List (String × String)
  | [], k, v => [(k, v)]
  | (k', v') :: rest, k, v =>
      if k' = k then (k, v) :: rest else (k', v') :: mapSet rest k v

/-- Key list of an association list. -/
def mapKeys (m : List (String × String)) : List String := m.map Prod.fst

/-- Models `AsyncCallback::reportError`: the round trip is logged and the
foreground's decision (here a parameter) is handed back to the worker. -/
def acbReportError (decision : HandleError) (msg : String) (retryNumber : Nat)
    (st : ScanState) : HandleError × ScanState :=
  (decision, { st with errorLog := st.errorLog ++ [(msg, retryNumber)] })

/-! ## Traversal configuration and the DirCallback operations -/

/-- TraverserConfig of `parallel_scan.cpp`, restricted to the fields the
callbacks consult (the error-map references live in `ScanState`; status
reporting mutates only worker-local timing state and is not modelled). -/
structure TraverserConfig where
  baseDisplayPath : String
  passFileFilter : String → Bool
  passDirFilter : String → Bool × Bool
  handleSymlinks : SymLinkHandling

/-- Display path of a relative path under the base folder
(`AFS::getDisplayPath(AFS::appendRelPath(cfg.baseFolderPath, relPath))`). -/
def displayPathOf (cfg : TraverserConfig) (relPath : String) : String :=
  cfg.baseDisplayPath ++ sepS ++ relPath

/-- Message synthesized by `DirCallback::onFolder` when the recursion depth
bound is exceeded: `FileError(replaceCpy(_("Cannot read directory %x."), ...),
L"Endless recursion.")`. -/
def recursionErrorMsg (displayPath : String) : String :=
  "Cannot read directory " ++ displayPath ++ ". Endless recursion."

/-- SYNC_DB_FILE_ENDING (provided constant from `db_file.h`). -/
def SYNC_DB_FILE_ENDING : String := ".ffs_db"

/-- LOCK_FILE_ENDING (provided constant from `lock_holder.h`). -/
def LOCK_FILE_ENDING : String := ".ffs_lock"

/-- DirCallback::reportDirError — forwards to the coordinator; on CONTINUE the
message is recorded in `failedDirReads` under
`beforeLast(parentRelPathPf_, FILE_NAME_SEPARATOR, IF_MISSING_RETURN_NONE)`;
on RETRY nothing is recorded. -/
def reportDirError (decision : HandleError) (parentRelPathPf : String)
    (msg : String) (retryNumber : Nat) (st : ScanState) : HandleError × ScanState :=
  match acbReportError decision msg retryNumber st with
  | (HandleError.onErrorContinue, st1) =>
      (HandleError.onErrorContinue,
       { st1 with failedDirReads := mapSet st1.failedDirReads (beforeLastSep parentRelPathPf) msg })
  | (HandleError.onErrorRetry, st1) => (HandleError.onErrorRetry, st1)

/-- DirCallback::reportItemError — forwards to the coordinator; on CONTINUE
the message is recorded in `failedItemReads` under
`parentRelPathPf_ + itemName`; on RETRY nothing is recorded. -/
def reportItemError (decision : HandleError) (parentRelPathPf : String)
    (msg : String) (retryNumber : Nat) (itemName : String) (st : ScanState) :
    HandleError × ScanState :=
  match acbReportError decision msg retryNumber st with
  | (HandleError.onErrorContinue, st1) =>
      (HandleError.onErrorContinue,
       { st1 with failedItemReads := mapSet st1.failedItemReads (parentRelPathPf ++ itemName) msg })
  | (HandleError.onErrorRetry, st1) => (HandleError.onErrorRetry, st1)

/-- DirCallback::onFile — skip database/lock files, apply the file filter to
the full relative path, otherwise record the file and count it.  (The
interruption check and the rate-limited status update have no effect on the
snapshot or the scan state and are not modelled.) -/
def onFile (cfg : TraverserConfig) (parentRelPathPf itemName : String)
    (modTime : Int) (fileSize fileId : Nat) (viaSymlink : Bool)
    (output : FolderContainer) (st : ScanState) : FolderContainer × ScanState :=
  if zendsWith itemName SYNC_DB_FILE_ENDING || zendsWith itemName LOCK_FILE_ENDING then
    (output, st)
  else
    let fileRelPath := parentRelPathPf ++ itemName
    if !cfg.passFileFilter fileRelPath then (output, st)
    else
      (output.addSubFile itemName ⟨modTime, fileSize, fileId, viaSymlink⟩,
       { st with itemsScanned := st.itemsScanned + 1 })

/-- DirCallback::onFolder — apply the directory filter; when rejected with no
possible matches below, skip entirely; otherwise create the sub-folder node
(first component `none`/`some` is the optional child callback:
separator-extended relative prefix and `level + 1`; the `Bool` records that the
node was added).  Past level 100 the synthesized endless-recursion error is
routed through `reportItemError` (the observer's final decision is CONTINUE:
`tryReportingItemError` re-throws on RETRY, so only CONTINUE returns normally)
and no child callback is produced. -/
def onFolder (cfg : TraverserConfig) (parentRelPathPf : String) (level : Nat)
    (itemName : String) (st : ScanState) : Option (String × Nat) × Bool × ScanState :=
  let folderRelPath := parentRelPathPf ++ itemName
  let pd := cfg.passDirFilter folderRelPath
  if !pd.1 && !pd.2 then (none, false, st)
  else
    let st1 := if pd.1 then { st with itemsScanned := st.itemsScanned + 1 } else st
    if level > 100 then
      let msg := recursionErrorMsg (displayPathOf cfg folderRelPath)
      (none, true, (reportItemError HandleError.onErrorContinue parentRelPathPf msg 0 itemName st1).2)
    else
      (some (folderRelPath ++ sepS, level + 1), true, st1)

/-- DirCallback::onSymlink — dispatch on the symlink mode: EXCLUDE always
skips; DIRECT records a `LinkAttributes` when the file filter accepts and
always skips; FOLLOW skips only when both filter variants reject. -/
def onSymlink (cfg : TraverserConfig) (parentRelPathPf itemName : String)
    (modTime : Int) (output : FolderContainer) (st : ScanState) :
    HandleLink × FolderContainer × ScanState :=
  let linkRelPath := parentRelPathPf ++ itemName
  match cfg.handleSymlinks with
  | SymLinkHandling.exclude => (HandleLink.linkSkip, output, st)
  | SymLinkHandling.direct =>
      if cfg.passFileFilter linkRelPath then
        (HandleLink.linkSkip, output.addSubLink itemName ⟨modTime⟩,
         { st with itemsScanned := st.itemsScanned + 1 })
      else (HandleLink.linkSkip, output, st)
  | SymLinkHandling.follow =>
      if !cfg.passFileFilter linkRelPath then
        let pd := cfg.passDirFilter linkRelPath
        if !pd.1 && !pd.2 then (HandleLink.linkSkip, output, st)
        else (HandleLink.linkFollow, output, st)
      else (HandleLink.linkFollow, output, st)

/-! ## Filesystem description and the traversal driver

The traversal primitive `AFS::traverseFolderParallel` is external to the given
sources.  Modelled from the spec: for each child of a directory it invokes the
installed callback's `onFile` / `onFolder` / `onSymlink`; a failed child probe
is routed through `reportItemError`, a failed directory enumeration through
`reportDirError` and the subtree is abandoned.  An `FSEntry` list describes
the ultimately-resolved outcomes the primitive delivers at one directory:
RETRY loops are folded away (a probe retried and then successful is an
ordinary entry; an ultimately-failed one is a `probeFail` whose final decision
was CONTINUE).  In FOLLOW mode a followed symlink is re-delivered by the
primitive as a file or folder entry with the `viaSymlink` flag set, which is
how such targets are described here. -/

/-- One directory entry as delivered by the traversal primitive. -/
inductive FSEntry : Type where
  | file (itemName : String) (modTime : Int) (fileSize fileId : Nat) (viaSymlink : Bool) : FSEntry
  | symlink (itemName : String) (modTime : Int) : FSEntry
  | probeFail (itemName : String) (msg : String) : FSEntry
  | folder (itemName : String) (viaSymlink : Bool) (enumError : Option String)
           (content : List FSEntry) : FSEntry

/-- Contents found at a requested base folder: an optional enumeration failure
for the base directory itself, and its entries otherwise. -/
structure FSBase where
  rootEnumError : Option String
  entries : List FSEntry

mutual

/-- Driver for one directory's entry list: invokes the `DirCallback`
operations for each entry in order, accumulating the folder node under
construction and the scan state. -/
def traverseEntries (cfg : TraverserConfig) (parentRelPathPf : String) (level : Nat) :
    List FSEntry → FolderContainer → ScanState → FolderContainer × ScanState
  | [], acc, st => (acc, st)
  | e :: rest, acc, st =>
      let r := traverseEntry cfg parentRelPathPf level e acc st
      traverseEntries cfg parentRelPathPf level rest r.1 r.2

/-- Driver for a single entry: dispatches to `onFile` / `onSymlink` /
`reportItemError` / `onFolder`, descending into a folder's content exactly
when `onFolder` hands back a child callback and recording the enumeration
error through the child callback's `reportDirError` when listing fails. -/
def traverseEntry (cfg : TraverserConfig) (parentRelPathPf : String) (level : Nat) :
    FSEntry → FolderContainer → ScanState → FolderContainer × ScanState
  | FSEntry.file n mt sz id sym, acc, st => onFile cfg parentRelPathPf n mt sz id sym acc st
  | FSEntry.symlink n mt, acc, st =>
      let r := onSymlink cfg parentRelPathPf n mt acc st
      (r.2.1, r.2.2)
  | FSEntry.probeFail n msg, acc, st =>
      (acc, (reportItemError HandleError.onErrorContinue parentRelPathPf msg 0 n st).2)
  | FSEntry.folder n sym enumError content, acc, st =>
      match onFolder cfg parentRelPathPf level n st with
      | (none, false, st1) => (acc, st1)
      | (none, true, st1) => (acc.addSubFolder n sym FolderContainer.empty, st1)
      | (some child, _, st1) =>
          match enumError with
          | some msg =>
              (acc.addSubFolder n sym FolderContainer.empty,
               (reportDirError HandleError.onErrorContinue child.1 msg 0 st1).2)
          | none =>
              let r := traverseEntries cfg child.1 child.2 content FolderContainer.empty st1
              (acc.addSubFolder n sym r.1, r.2)

end

/-- One worker's scan of a single base folder: the `BaseDirCallback` is
constructed with the empty parent-relative prefix and level 0; a failed
enumeration of the base directory itself goes through `reportDirError` with
that empty prefix.  Returns the produced `DirectoryValue` and the final scan
state (items counted, error log). -/
def scanBase (cfg : TraverserConfig) (base : FSBase) : DirectoryValue × ScanState :=
  match base.rootEnumError with
  | some msg =>
      let st := (reportDirError HandleError.onErrorContinue "" msg 0 ScanState.empty).2
      (⟨FolderContainer.empty, st.failedDirReads, st.failedItemReads⟩, st)
  | none =>
      let r := traverseEntries cfg "" 0 base.entries FolderContainer.empty ScanState.empty
      (⟨r.1, r.2.failedDirReads, r.2.failedItemReads⟩, r.2)

/-! ## Collectors over the snapshot and the filesystem description -/

/-- Kind of a positively recorded snapshot entry. -/
inductive RecKind : Type where
  | file | link | dir
deriving DecidableEq

mutual

/-- All recorded entries of a folder tree, as (relative path, kind) pairs;
`pfxPf` is the separator-postfixed relative prefix of the node. -/
def fcPaths (pfxPf : String) : FolderContainer → List (String × RecKind)
  | FolderContainer.mk fs ls ds =>
      fs.map (fun f => (pfxPf ++ f.1, RecKind.file)) ++
      ls.map (fun l => (pfxPf ++ l.1, RecKind.link)) ++
      fcPathsFolders pfxPf ds

/-- Recorded entries contributed by a list of sub-folder nodes. -/
def fcPathsFolders (pfxPf : String) : List (String × Bool × FolderContainer) → List (String × RecKind)
  | [] => []
  | d :: rest =>
      (pfxPf ++ d.1, RecKind.dir) ::
        (fcPaths (pfxPf ++ d.1 ++ sepS) d.2.2 ++ fcPathsFolders pfxPf rest)

end

/-- Kind of a filesystem slot (one delivered directory entry). -/
inductive FSKind : Type where
  | fileK | linkK | errK | dirK
deriving DecidableEq

/-- Name of a delivered entry. -/
def entryName : FSEntry → String
  | FSEntry.file n _ _ _ _ => n
  | FSEntry.symlink n _ => n
  | FSEntry.probeFail n _ => n
  | FSEntry.folder n _ _ _ => n

mutual

/-- All slots of a filesystem description: each delivered entry together with
the component path of its parent directory and its kind. -/
def fsSlots (c : List String) : List FSEntry → List (List String × String × FSKind)
  | [] => []
  | e :: rest => fsSlotsEntry c e ++ fsSlots c rest

/-- Slots contributed by a single entry (a folder contributes its own slot and
all slots of its content). -/
def fsSlotsEntry (c : List String) : FSEntry → List (List String × String × FSKind)
  | FSEntry.file n _ _ _ _ => [(c, n, FSKind.fileK)]
  | FSEntry.symlink n _ => [(c, n, FSKind.linkK)]
  | FSEntry.probeFail n _ => [(c, n, FSKind.errK)]
  | FSEntry.folder n _ _ content => (c, n, FSKind.dirK) :: fsSlots (c ++ [n]) content

end

/-- Relative path of a slot. -/
def slotPath (s : List String × String × FSKind) : String := joinComps s.1 ++ s.2.1

mutual

/-- Well-formedness of a delivered entry list: names are nonempty,
separator-free and pairwise distinct within each directory (true of any real
enumeration). -/
def wfEntries : List FSEntry → Bool
  | [] => true
  | e :: rest =>
      wfEntry e && !((rest.map entryName).contains (entryName e)) && wfEntries rest

/-- Well-formedness of a single delivered entry. -/
def wfEntry : FSEntry → Bool
  | FSEntry.folder n _ _ content => goodName n && wfEntries content
  | e => goodName (entryName e)

end

/-! ## Device partitioner / dispatcher (`fff::fillBuffer`) -/

/-- Insertion into the `perDeviceFolders` bucket map: the key set under its
root device path. -/
def addToBuckets : List (String × List DirectoryKey) → String → DirectoryKey →
    List (String × List DirectoryKey)
  | [], r, k => [(r, [k])]
  | (r', ks) :: rest, r, k =>
      if r' = r then (r', ks ++ [k]) :: rest else (r', ks) :: addToBuckets rest r k

/-- Aggregation of the requested keys by root device
(`perDeviceFolders[AFS::getPathComponents(key.folderPath).rootPath].insert(key)`). -/
def perDeviceFolders (foldersToRead : List DirectoryKey) : List (String × List DirectoryKey) :=
  foldersToRead.foldl (fun bs k => addToBuckets bs k.folderPath.rootPath k) []

/-- Pre-insertion of one placeholder `DirectoryValue` per requested key
(`workload.emplace(key, &buf[key])` performed per device bucket before any
worker is spawned). -/
def preInsert (foldersToRead : List DirectoryKey) : List (DirectoryKey × DirectoryValue) :=
  (perDeviceFolders foldersToRead).flatMap (fun b => b.2.map (fun k => (k, DirectoryValue.empty)))

/-- Traversal configuration a `BaseDirCallback` is built with for one key. -/
def mkCfg (filters : Nat → HardFilterModel) (key : DirectoryKey) : TraverserConfig :=
  { baseDisplayPath := key.folderPath.display
    passFileFilter := (filters key.filterId).passFileFilter
    passDirFilter := (filters key.filterId).passDirFilter
    handleSymlinks := key.handleSymlinks }

/-- One observer invocation made from the foreground thread.  The display text
of a status call is timing-dependent rendering and is omitted; the reported
`itemsScanned` count is kept. -/
inductive ObsCall : Type where
  | status (itemsScanned : Nat) : ObsCall
  | error (msg : String) (retryNumber : Nat) : ObsCall
deriving DecidableEq

/-- Sequential model of `AsyncCallback::waitUntilDone`: every worker error
request is answered through exactly one `callback.reportError` invocation
(round trips are serialized), and once `threadsToFinish_` reaches zero exactly
one final `callback.reportStatus` is issued before returning.  Intermediate
timeout-driven `reportStatus` calls are timing-dependent and omitted; with no
workers the first timed wait already observes `threadsToFinish_ == 0`, so the
trace below is exact for an empty workload. -/
def waitUntilDoneCalls (errorRequests : List (String × Nat)) (itemsTotal : Nat) : List ObsCall :=
  errorRequests.map (fun e => ObsCall.error e.1 e.2) ++ [ObsCall.status itemsTotal]

/-- Functional model of `fff::fillBuffer`: the output map is cleared (the
prior contents `buf0` are discarded), one placeholder entry per requested key
is inserted, and each worker fills exactly its own slots; the second
component is the trace of observer calls made by `waitUntilDone`.  Worker
interleaving is modelled sequentially; the temporal interleaving of
placeholder insertion and worker spawning inside the source's per-device loop
is captured separately by `setupEvents`. -/
def fillBuffer (fs : DirectoryKey → FSBase) (filters : Nat → HardFilterModel)
    (foldersToRead : List DirectoryKey) (buf0 : List (DirectoryKey × DirectoryValue)) :
    List (DirectoryKey × DirectoryValue) × List ObsCall :=
  let _ := buf0
  let results := (preInsert foldersToRead).map
    (fun kv => (kv.1, scanBase (mkCfg filters kv.1) (fs kv.1)))
  (results.map (fun r => (r.1, r.2.1)),
   waitUntilDoneCalls ((results.map (fun r => r.2.2.errorLog)).flatten)
     ((results.map (fun r => r.2.2.itemsScanned)).sum))

/-- One step of fillBuffer's worker-initialization loop, as observable from
the main thread: a structural mutation of `buf` (the default insertion
performed by `workload.emplace(key, &buf[key])`) or the spawning of a worker
thread (`worker.emplace_back`, whose `threadIdx` is the number of previously
spawned workers). -/
inductive SetupEvent : Type where
  | insertKey (key : DirectoryKey) : SetupEvent
  | spawnWorker (threadIdx : Nat) : SetupEvent
deriving DecidableEq

/-- Event trace of the per-device loop of `fff::fillBuffer`
(parallel_scan.cpp:562-597) starting at worker index `i0`: for each device
bucket in order, first the `buf[key]` insertions of that bucket's keys, then
the spawn of that bucket's worker. -/
def setupEventsAux : Nat → List (String × List DirectoryKey) → List SetupEvent
  | _, [] => []
  | idx, b :: rest =>
      b.2.map SetupEvent.insertKey ++
        SetupEvent.spawnWorker idx :: setupEventsAux (idx + 1) rest

/-- Event trace of fillBuffer's worker-initialization loop over the device
buckets of the requested keys. -/
def setupEvents (foldersToRead : List DirectoryKey) : List SetupEvent :=
  setupEventsAux 0 (perDeviceFolders foldersToRead)

/-- Keys whose placeholder was inserted into `buf`, in event order. -/
def insertedKeys : List SetupEvent → List DirectoryKey
  | [] => []
  | SetupEvent.insertKey k :: rest => k :: insertedKeys rest
  | SetupEvent.spawnWorker _ :: rest => insertedKeys rest

/-- Decides that a trace contains no further `buf` insertions. -/
def noMoreInserts : List SetupEvent → Bool
  | [] => true
  | SetupEvent.insertKey _ :: _ => false
  | SetupEvent.spawnWorker _ :: rest => noMoreInserts rest

/-- Decides the ordering property claimed of fillBuffer's setup: every
structural mutation of `buf` happens before the first worker is spawned (that
is, no insertion occurs at or after the first spawn event). -/
def insertionsPrecedeSpawns : List SetupEvent → Bool
  | [] => true
  | SetupEvent.insertKey _ :: rest => insertionsPrecedeSpawns rest
  | SetupEvent.spawnWorker _ :: rest => noMoreInserts rest

/-! ## AsyncCallback status state (progress serialization) -/

/-- Status-side state of the coordinator: the ordered map
`activeThreadIdxs_` (worker index to declared parallel ops) and the atomic
`notifyingThreadIdx_`. -/
structure StatusState where
  activeThreadIdxs : List (Int × Nat)
  notifyingThreadIdx : Int
deriving DecidableEq

/-- Keeps the `std::map` key order: sorted insertion (emplace does not
overwrite an existing key). -/
def mapInsertSorted : List (Int × Nat) → Int → Nat → List (Int × Nat)
  | [], k, v => [(k, v)]
  | (k', v') :: rest, k, v =>
      if k < k' then (k, v) :: (k', v') :: rest
      else if k = k' then (k', v') :: rest
      else (k', v') :: mapInsertSorted rest k v

/-- `std::map::erase` by key. -/
def mapErase : List (Int × Nat) → Int → List (Int × Nat)
  | [], _ => []
  | (k', v') :: rest, k => if k' = k then rest else (k', v') :: mapErase rest k

/-- First key of the ordered map (`begin()->first`); 0 on the empty map. -/
def headKey : List (Int × Nat) → Int
  | [] => 0
  | (k, _) :: _ => k

/-- AsyncCallback::notifyWorkBegin — inserts the worker and recomputes
`notifyingThreadIdx_` as the first (minimum) key of the map. -/
def notifyWorkBegin (st : StatusState) (threadIdx : Int) (parallelOps : Nat) : StatusState :=
  let m := mapInsertSorted st.activeThreadIdxs threadIdx parallelOps
  { activeThreadIdxs := m, notifyingThreadIdx := headKey m }

/-- AsyncCallback::notifyWorkEnd (status part) — erases the worker and
recomputes `notifyingThreadIdx_` (0 when no worker remains).  The
`threadsToFinish_` decrement under the request lock is part of the
shutdown protocol and not of the status state. -/
def notifyWorkEnd (st : StatusState) (threadIdx : Int) : StatusState :=
  let m := mapErase st.activeThreadIdxs threadIdx
  { activeThreadIdxs := m,
    notifyingThreadIdx := if m.isEmpty then 0 else headKey m }

/-- AsyncCallback::mayReportCurrentFile — returns true iff the worker is the
notifying one and the wrap-safe distance (`numeric::dist`) from the worker's
`lastReportTime` exceeds `cbInterval_`; the second component is the (possibly
updated) `lastReportTime`. -/
def mayReportCurrentFile (st : StatusState) (cbInterval : Nat) (threadIdx : Int)
    (lastReportTime now : Nat) : Bool × Nat :=
  if threadIdx ≠ st.notifyingThreadIdx then (false, lastReportTime)
  else if cbInterval < Nat.dist now lastReportTime then (true, now)
  else (false, lastReportTime)

/-- Invariant the claim ascribes to the reporting-worker selection: 0 when no
worker is active, otherwise the minimum active index; the key list stays
sorted. -/
def reportingWorkerInv (st : StatusState) : Prop :=
  (st.activeThreadIdxs = [] → st.notifyingThreadIdx = 0) ∧
  (st.activeThreadIdxs ≠ [] →
     st.notifyingThreadIdx ∈ st.activeThreadIdxs.map Prod.fst ∧
     ∀ k ∈ st.activeThreadIdxs.map Prod.fst, st.notifyingThreadIdx ≤ k) ∧
  st.activeThreadIdxs.Pairwise (fun a b => a.1 < b.1)

/-! ## Concrete instances used by counterexamples and witnesses -/

/-- Accept-everything filter configuration. -/
def cfgAll : TraverserConfig :=
  ⟨"Base", fun _ => true, fun _ => (true, true), SymLinkHandling.direct⟩

/-- Reject-everything filter configuration (directory filter rejects with no
possible matches below). -/
def cfgRejectDir : TraverserConfig :=
  ⟨"Base", fun _ => false, fun _ => (false, false), SymLinkHandling.exclude⟩

/-- Directory filter that rejects the directory itself but reports that the
subtree might contain matches. -/
def cfgMaybeDir : TraverserConfig :=
  ⟨"Base", fun _ => false, fun _ => (false, true), SymLinkHandling.exclude⟩

/-- Base content whose single sub-folder fails to enumerate. -/
def fsEnumFail : FSBase := ⟨none, [FSEntry.folder "a" false (some "boom") []]⟩

/-- Base content with one ordinary, empty sub-folder. -/
def fsOneFolder : FSBase := ⟨none, [FSEntry.folder "a" false none []]⟩

/-- Trivial filter environment. -/
def filtersTriv : Nat → HardFilterModel :=
  fun _ => ⟨fun _ => true, fun _ => (true, true)⟩

/-- Empty filesystem environment. -/
def fsEnvEmpty : DirectoryKey → FSBase := fun _ => ⟨none, []⟩

/-- Filesystem environment with one file at every base. -/
def fsEnvOneFile : DirectoryKey → FSBase :=
  fun _ => ⟨none, [FSEntry.file "a.txt" 1 10 5 false]⟩

/-- Sample scan request on device `/dev1`. -/
def keyA : DirectoryKey := ⟨⟨"/dev1", ["x"]⟩, 0, SymLinkHandling.direct⟩

/-- Sample scan request on device `/dev2`. -/
def keyB : DirectoryKey := ⟨⟨"/dev2", ["y"]⟩, 0, SymLinkHandling.follow⟩

/-- Second sample scan request on device `/dev1`. -/
def keyC : DirectoryKey := ⟨⟨"/dev1", ["z"]⟩, 1, SymLinkHandling.exclude⟩

/-- Filter condition a recorded entry of the given kind must have satisfied. -/
def filterOKPath (cfg : TraverserConfig) (p : String) (k : RecKind) : Prop :=
  match k with
  | RecKind.file => cfg.passFileFilter p = true
  | RecKind.link => cfg.passFileFilter p = true
  | RecKind.dir => (cfg.passDirFilter p).1 = true ∨ (cfg.passDirFilter p).2 = true

/-- Snapshot kind produced from a filesystem slot kind (a failed probe
produces no positive entry). -/
def recOfFs : FSKind → Option RecKind
  | FSKind.fileK => some RecKind.file
  | FSKind.linkK => some RecKind.link
  | FSKind.dirK => some RecKind.dir
  | FSKind.errK => none

/-- Character-level form of `joinComps` (used to reason about path
injectivity). -/
def joinCharC : List (List Char) → List Char
  | [] => []
  | u :: rest => u ++ sepChar :: joinCharC rest

/-- Base content with one file and one failed probe. -/
def fsMixed : FSBase :=
  ⟨none, [FSEntry.file "a.txt" 1 10 5 false, FSEntry.probeFail "bad" "io error"]⟩

/-! ## Theorems -/

/-- C7: for every call to reportDirError or reportItemError — when the
coordinator's decision is CONTINUE, reportDirError records the message in
failedFolderReads under the portion of the parent-relative prefix before its
final separator and reportItemError records it in failedItemReads under
`parentRelPath ++ itemName`, and CONTINUE is returned; when the decision is
RETRY, RETRY is returned and neither error map is modified. -/
theorem reportError_handlers_spec (parentRelPathPf msg itemName : String)
    (retryNumber : Nat) (st : ScanState) :
    reportDirError HandleError.onErrorContinue parentRelPathPf msg retryNumber st =
      (HandleError.onErrorContinue,
       { st with errorLog := st.errorLog ++ [(msg, retryNumber)],
                 failedDirReads := mapSet st.failedDirReads (beforeLastSep parentRelPathPf) msg }) ∧
    reportItemError HandleError.onErrorContinue parentRelPathPf msg retryNumber itemName st =
      (HandleError.onErrorContinue,
       { st with errorLog := st.errorLog ++ [(msg, retryNumber)],
                 failedItemReads := mapSet st.failedItemReads (parentRelPathPf ++ itemName) msg }) ∧
    (reportDirError HandleError.onErrorRetry parentRelPathPf msg retryNumber st).1 =
      HandleError.onErrorRetry ∧
    (reportDirError HandleError.onErrorRetry parentRelPathPf msg retryNumber st).2.failedDirReads =
      st.failedDirReads ∧
    (reportDirError HandleError.onErrorRetry parentRelPathPf msg retryNumber st).2.failedItemReads =
      st.failedItemReads ∧
    (reportItemError HandleError.onErrorRetry parentRelPathPf msg retryNumber itemName st).1 =
      HandleError.onErrorRetry ∧
    (reportItemError HandleError.onErrorRetry parentRelPathPf msg retryNumber itemName st).2.failedDirReads =
      st.failedDirReads ∧
    (reportItemError HandleError.onErrorRetry parentRelPathPf msg retryNumber itemName st).2.failedItemReads =
      st.failedItemReads :=
  ⟨rfl, rfl, rfl, rfl, rfl, rfl, rfl, rfl⟩

/-- C10: a failed enumeration of the base folder itself is recorded in
failedFolderReads under the empty relative path: the base callback carries the
empty parent-relative prefix (level 0), and `beforeLast` of the empty string
with a missing separator yields the empty string. -/
theorem baseDirError_empty_key (cfg : TraverserConfig) (msg : String) (entries : List FSEntry) :
    (scanBase cfg ⟨some msg, entries⟩).1.failedFolderReads = [("", msg)] ∧
    beforeLastSep "" = "" :=
  ⟨rfl, rfl⟩

/-- C6: for every file entry visited by onFile — database/lock-suffixed names
are skipped with nothing recorded and no count; otherwise a rejected file
filter on the full relative path records nothing; otherwise a FileRecord with
the entry's modification time, size, file id and symlink-origin flag is
appended and itemsScanned is incremented by exactly one. -/
theorem onFile_spec (cfg : TraverserConfig) (parentRelPathPf itemName : String)
    (modTime : Int) (fileSize fileId : Nat) (viaSymlink : Bool)
    (output : FolderContainer) (st : ScanState) :
    ((zendsWith itemName SYNC_DB_FILE_ENDING || zendsWith itemName LOCK_FILE_ENDING) = true →
       onFile cfg parentRelPathPf itemName modTime fileSize fileId viaSymlink output st =
         (output, st)) ∧
    ((zendsWith itemName SYNC_DB_FILE_ENDING || zendsWith itemName LOCK_FILE_ENDING) = false →
       cfg.passFileFilter (parentRelPathPf ++ itemName) = false →
       onFile cfg parentRelPathPf itemName modTime fileSize fileId viaSymlink output st =
         (output, st)) ∧
    ((zendsWith itemName SYNC_DB_FILE_ENDING || zendsWith itemName LOCK_FILE_ENDING) = false →
       cfg.passFileFilter (parentRelPathPf ++ itemName) = true →
       onFile cfg parentRelPathPf itemName modTime fileSize fileId viaSymlink output st =
         (output.addSubFile itemName ⟨modTime, fileSize, fileId, viaSymlink⟩,
          { st with itemsScanned := st.itemsScanned + 1 })) := by
  refine ⟨fun h => ?_, fun h hf => ?_, fun h hf => ?_⟩
  · simp [onFile, h]
  · simp [onFile, h, hf]
  · simp [onFile, h, hf]

/-- C6 witness: the recording branch of onFile at a concrete input. -/
theorem onFile_spec_witness :
    (zendsWith "a.txt" SYNC_DB_FILE_ENDING || zendsWith "a.txt" LOCK_FILE_ENDING) = false ∧
    cfgAll.passFileFilter ("" ++ "a.txt") = true ∧
    onFile cfgAll "" "a.txt" 1 10 5 false FolderContainer.empty ScanState.empty =
      (FolderContainer.empty.addSubFile "a.txt" ⟨1, 10, 5, false⟩,
       { ScanState.empty with itemsScanned := ScanState.empty.itemsScanned + 1 }) :=
  ⟨by decide, by decide,
   (onFile_spec cfgAll "" "a.txt" 1 10 5 false FolderContainer.empty ScanState.empty).2.2
     (by decide) (by decide)⟩

/-- C2 counterexample: a directory entry visited by onFolder at level 0 (well
below 100) yields no child callback when the directory filter rejects it with
no possible matches below — so "level ≤ 100 implies a child callback is
returned" is false as stated for arbitrary visited entries. -/
theorem onFolder_filtered_no_child_cx :
    (onFolder cfgRejectDir "" 0 "a" ScanState.empty).1 = none ∧ (0 : Nat) ≤ 100 :=
  ⟨rfl, by decide⟩

/-- C2 (amended): for every directory entry visited by onFolder that the
directory filter admits (passed, or might contain matches): at level ≤ 100 a
child callback with the prefix extended by the child name plus separator and
level + 1 is returned, the node is added, and no error map changes; at level >
100 no child callback is returned, the node is still added, and the
synthesized endless-recursion error is routed through the item-error handler
(recorded in failedItemReads under the folder's relative path). -/
theorem onFolder_depth_spec (cfg : TraverserConfig) (parentRelPathPf : String)
    (level : Nat) (itemName : String) (st : ScanState)
    (hAdmit : (cfg.passDirFilter (parentRelPathPf ++ itemName)).1 = true ∨
              (cfg.passDirFilter (parentRelPathPf ++ itemName)).2 = true) :
    (level ≤ 100 →
       (onFolder cfg parentRelPathPf level itemName st).1 =
         some (parentRelPathPf ++ itemName ++ sepS, level + 1) ∧
       (onFolder cfg parentRelPathPf level itemName st).2.1 = true ∧
       (onFolder cfg parentRelPathPf level itemName st).2.2.failedItemReads =
         st.failedItemReads ∧
       (onFolder cfg parentRelPathPf level itemName st).2.2.failedDirReads =
         st.failedDirReads) ∧
    (level > 100 →
       (onFolder cfg parentRelPathPf level itemName st).1 = none ∧
       (onFolder cfg parentRelPathPf level itemName st).2.1 = true ∧
       (onFolder cfg parentRelPathPf level itemName st).2.2.failedItemReads =
         mapSet st.failedItemReads (parentRelPathPf ++ itemName)
           (recursionErrorMsg (displayPathOf cfg (parentRelPathPf ++ itemName))) ∧
       (onFolder cfg parentRelPathPf level itemName st).2.2.failedDirReads =
         st.failedDirReads) := by
  have hcond : (!(cfg.passDirFilter (parentRelPathPf ++ itemName)).1 &&
                !(cfg.passDirFilter (parentRelPathPf ++ itemName)).2) = false := by
    rcases hAdmit with h | h <;> simp [h]
  constructor
  · intro hlev
    have hnot : ¬ level > 100 := by omega
    by_cases hp : (cfg.passDirFilter (parentRelPathPf ++ itemName)).1 = true
    · simp [onFolder, hcond, hnot, hp]
    · simp [onFolder, hcond, hnot, hp, hAdmit.resolve_left hp]
  · intro hlev
    by_cases hp : (cfg.passDirFilter (parentRelPathPf ++ itemName)).1 = true
    · simp [onFolder, hcond, hlev, hp, reportItemError, acbReportError]
    · simp [onFolder, hcond, hlev, hp, hAdmit.resolve_left hp, reportItemError, acbReportError]

/-- C2 witness: the depth-exceeded branch at a concrete input (level 101). -/
theorem onFolder_depth_spec_witness :
    ((cfgAll.passDirFilter ("" ++ "a")).1 = true ∨ (cfgAll.passDirFilter ("" ++ "a")).2 = true) ∧
    (((101 : Nat) ≤ 100 →
       (onFolder cfgAll "" 101 "a" ScanState.empty).1 = some ("" ++ "a" ++ sepS, 101 + 1) ∧
       (onFolder cfgAll "" 101 "a" ScanState.empty).2.1 = true ∧
       (onFolder cfgAll "" 101 "a" ScanState.empty).2.2.failedItemReads =
         ScanState.empty.failedItemReads ∧
       (onFolder cfgAll "" 101 "a" ScanState.empty).2.2.failedDirReads =
         ScanState.empty.failedDirReads) ∧
     ((101 : Nat) > 100 →
       (onFolder cfgAll "" 101 "a" ScanState.empty).1 = none ∧
       (onFolder cfgAll "" 101 "a" ScanState.empty).2.1 = true ∧
       (onFolder cfgAll "" 101 "a" ScanState.empty).2.2.failedItemReads =
         mapSet ScanState.empty.failedItemReads ("" ++ "a")
           (recursionErrorMsg (displayPathOf cfgAll ("" ++ "a"))) ∧
       (onFolder cfgAll "" 101 "a" ScanState.empty).2.2.failedDirReads =
         ScanState.empty.failedDirReads)) :=
  ⟨Or.inl (by decide), onFolder_depth_spec cfgAll "" 101 "a" ScanState.empty (Or.inl (by decide))⟩

/-- C5 counterexample: with the empty input set, fillBuffer's observer trace
is not empty — waitUntilDone issues exactly one final reportStatus call before
returning, so "the observer receives no reportStatus calls" is false. -/
theorem fillBuffer_empty_status_cx :
    (fillBuffer fsEnvEmpty filtersTriv [] []).2 = [ObsCall.status 0] ∧
    (fillBuffer fsEnvEmpty filtersTriv [] []).2 ≠ [] :=
  ⟨rfl, by decide⟩

/-- C5 (amended): with the empty input set, fillBuffer returns an empty
output map, the observer receives no reportError calls, and exactly one
reportStatus call (the final status report of waitUntilDone, with
itemsScanned = 0), regardless of the prior contents of the output map. -/
theorem fillBuffer_empty_spec (fs : DirectoryKey → FSBase) (filters : Nat → HardFilterModel)
    (buf0 : List (DirectoryKey × DirectoryValue)) :
    (fillBuffer fs filters [] buf0).1 = [] ∧
    (fillBuffer fs filters [] buf0).2 = [ObsCall.status 0] :=
  ⟨rfl, rfl⟩

/-- Members of a sorted insertion come from the original map or are the new
binding. -/
theorem mem_mapInsertSorted {x : Int × Nat} {l : List (Int × Nat)} {k : Int} {v : Nat}
    (h : x ∈ mapInsertSorted l k v) : x ∈ l ∨ x = (k, v) := by
  induction l with
  | nil => simpa [mapInsertSorted] using h
  | cons a rest ih =>
    obtain ⟨k', v'⟩ := a
    by_cases h1 : k < k'
    · simp only [mapInsertSorted, if_pos h1, List.mem_cons] at h
      simp only [List.mem_cons]
      tauto
    · by_cases h2 : k = k'
      · simp only [mapInsertSorted, if_neg h1, if_pos h2, List.mem_cons] at h
        simp only [List.mem_cons]
        tauto
      · simp only [mapInsertSorted, if_neg h1, if_neg h2, List.mem_cons] at h
        simp only [List.mem_cons]
        rcases h with h | h
        · tauto
        · rcases ih h with h | h <;> tauto

/-- Sorted insertion keeps the key order strictly increasing. -/
theorem pairwise_mapInsertSorted {l : List (Int × Nat)} (k : Int) (v : Nat)
    (h : l.Pairwise (fun a b => a.1 < b.1)) :
    (mapInsertSorted l k v).Pairwise (fun a b => a.1 < b.1) := by
  induction l with
  | nil => simp [mapInsertSorted]
  | cons a rest ih =>
    obtain ⟨k', v'⟩ := a
    rw [List.pairwise_cons] at h
    obtain ⟨ha, hrest⟩ := h
    by_cases h1 : k < k'
    · simp only [mapInsertSorted, if_pos h1]
      refine List.Pairwise.cons ?_ (List.Pairwise.cons ha hrest)
      intro y hy
      rcases List.mem_cons.mp hy with rfl | hy
      · exact h1
      · exact lt_trans h1 (ha y hy)
    · by_cases h2 : k = k'
      · simp only [mapInsertSorted, if_neg h1, if_pos h2]
        exact List.Pairwise.cons ha hrest
      · simp only [mapInsertSorted, if_neg h1, if_neg h2]
        refine List.Pairwise.cons ?_ (ih hrest)
        intro y hy
        rcases mem_mapInsertSorted hy with hy | rfl
        · exact ha y hy
        · simp only
          omega

/-- Sorted insertion never produces the empty map. -/
theorem mapInsertSorted_ne_nil (l : List (Int × Nat)) (k : Int) (v : Nat) :
    mapInsertSorted l k v ≠ [] := by
  cases l with
  | nil => simp [mapInsertSorted]
  | cons a rest =>
    obtain ⟨k', v'⟩ := a
    by_cases h1 : k < k' <;> by_cases h2 : k = k' <;> simp [mapInsertSorted, h1, h2]

/-- Members survive erasure. -/
theorem mem_mapErase {x : Int × Nat} {l : List (Int × Nat)} {k : Int}
    (h : x ∈ mapErase l k) : x ∈ l := by
  induction l with
  | nil => simp [mapErase] at h
  | cons a rest ih =>
    obtain ⟨k', v'⟩ := a
    by_cases h1 : k' = k
    · simp only [mapErase, if_pos h1] at h
      exact List.mem_cons_of_mem _ h
    · simp only [mapErase, if_neg h1, List.mem_cons] at h
      rcases h with rfl | h
      · exact List.mem_cons_self _ _
      · exact List.mem_cons_of_mem _ (ih h)

/-- Erasure keeps the key order strictly increasing. -/
theorem pairwise_mapErase {l : List (Int × Nat)} (k : Int)
    (h : l.Pairwise (fun a b => a.1 < b.1)) :
    (mapErase l k).Pairwise (fun a b => a.1 < b.1) := by
  induction l with
  | nil => simp [mapErase]
  | cons a rest ih =>
    obtain ⟨k', v'⟩ := a
    rw [List.pairwise_cons] at h
    obtain ⟨ha, hrest⟩ := h
    by_cases h1 : k' = k
    · simp only [mapErase, if_pos h1]
      exact hrest
    · simp only [mapErase, if_neg h1]
      exact List.Pairwise.cons (fun y hy => ha y (mem_mapErase hy)) (ih hrest)

/-- First key of a sorted map is minimal. -/
theorem headKey_min {m : List (Int × Nat)} (h : m.Pairwise (fun a b => a.1 < b.1)) :
    ∀ x ∈ m, headKey m ≤ x.1 := by
  cases m with
  | nil => intro x hx; exact absurd hx (List.not_mem_nil x)
  | cons a rest =>
    obtain ⟨k, v⟩ := a
    intro x hx
    rcases List.mem_cons.mp hx with rfl | hx
    · simp [headKey]
    · rw [List.pairwise_cons] at h
      have h2 := h.1 x hx
      simp only [headKey]
      omega

/-- First key of a nonempty map is a key of the map. -/
theorem headKey_mem {m : List (Int × Nat)} (h : m ≠ []) : headKey m ∈ m.map Prod.fst := by
  cases m with
  | nil => exact absurd rfl h
  | cons a rest =>
    obtain ⟨k, v⟩ := a
    simp [headKey]

/-- C8: after every notifyWorkBegin and notifyWorkEnd the reporting worker is
0 when no worker is active and otherwise the minimum active index (the key
list staying sorted), and mayReportCurrentFile returns true iff the caller is
the reporting worker and the elapsed time since its last report exceeds the
report interval, updating the last-report time exactly when it returns true —
so at any instant at most one worker index can be granted progress
publication. -/
theorem progress_serialization_spec (st : StatusState) (threadIdx : Int) (parallelOps : Nat)
    (cbInterval : Nat)
    (h : st.activeThreadIdxs.Pairwise (fun a b => a.1 < b.1)) :
    reportingWorkerInv (notifyWorkBegin st threadIdx parallelOps) ∧
    reportingWorkerInv (notifyWorkEnd st threadIdx) ∧
    (∀ tIdx last now,
       ((mayReportCurrentFile st cbInterval tIdx last now).1 = true ↔
          tIdx = st.notifyingThreadIdx ∧ cbInterval < Nat.dist now last) ∧
       ((mayReportCurrentFile st cbInterval tIdx last now).1 = true →
          (mayReportCurrentFile st cbInterval tIdx last now).2 = now) ∧
       ((mayReportCurrentFile st cbInterval tIdx last now).1 = false →
          (mayReportCurrentFile st cbInterval tIdx last now).2 = last)) ∧
    (∀ i j li ni lj nj,
       (mayReportCurrentFile st cbInterval i li ni).1 = true →
       (mayReportCurrentFile st cbInterval j lj nj).1 = true → i = j) := by
  refine ⟨?_, ?_, ?_, ?_⟩
  · have hp := pairwise_mapInsertSorted threadIdx parallelOps h
    simp only [reportingWorkerInv, notifyWorkBegin]
    refine ⟨fun he => absurd he (mapInsertSorted_ne_nil _ _ _), fun _ => ⟨?_, ?_⟩, hp⟩
    · exact headKey_mem (mapInsertSorted_ne_nil _ _ _)
    · intro k hk
      obtain ⟨x, hx, rfl⟩ := List.mem_map.mp hk
      exact headKey_min hp x hx
  · have hp := pairwise_mapErase threadIdx h
    simp only [reportingWorkerInv, notifyWorkEnd]
    by_cases hm : mapErase st.activeThreadIdxs threadIdx = []
    · refine ⟨fun _ => ?_, fun hne => absurd hm hne, hp⟩
      simp [hm]
    · have hie : (mapErase st.activeThreadIdxs threadIdx).isEmpty = false := by
        simpa [List.isEmpty_iff] using hm
      refine ⟨fun he => absurd he hm, fun _ => ?_, hp⟩
      simp only [hie, Bool.false_eq_true, if_false]
      refine ⟨headKey_mem hm, ?_⟩
      intro k hk
      obtain ⟨x, hx, rfl⟩ := List.mem_map.mp hk
      exact headKey_min hp x hx
  · intro tIdx last now
    by_cases h1 : tIdx = st.notifyingThreadIdx
    · by_cases h2 : cbInterval < Nat.dist now last
      · simp [mayReportCurrentFile, h1, h2]
      · simp [mayReportCurrentFile, h1, h2]
    · simp [mayReportCurrentFile, h1]
  · intro i j li ni lj nj hi hj
    by_cases h1 : i = st.notifyingThreadIdx
    · by_cases h2 : j = st.notifyingThreadIdx
      · rw [h1, h2]
      · simp [mayReportCurrentFile, h2] at hj
    · simp [mayReportCurrentFile, h1] at hi

/-- C8 witness: the progress-serialization properties at a concrete sorted
coordinator state. -/
theorem progress_serialization_spec_witness :
    (([(1, 2), (3, 1)] : List (Int × Nat)).Pairwise (fun a b => a.1 < b.1)) ∧
    (reportingWorkerInv (notifyWorkBegin ⟨[(1, 2), (3, 1)], 1⟩ 0 4) ∧
     reportingWorkerInv (notifyWorkEnd ⟨[(1, 2), (3, 1)], 1⟩ 0) ∧
     (∀ tIdx last now,
        ((mayReportCurrentFile ⟨[(1, 2), (3, 1)], 1⟩ 7 tIdx last now).1 = true ↔
           tIdx = StatusState.notifyingThreadIdx ⟨[(1, 2), (3, 1)], 1⟩ ∧
           7 < Nat.dist now last) ∧
        ((mayReportCurrentFile ⟨[(1, 2), (3, 1)], 1⟩ 7 tIdx last now).1 = true →
           (mayReportCurrentFile ⟨[(1, 2), (3, 1)], 1⟩ 7 tIdx last now).2 = now) ∧
        ((mayReportCurrentFile ⟨[(1, 2), (3, 1)], 1⟩ 7 tIdx last now).1 = false →
           (mayReportCurrentFile ⟨[(1, 2), (3, 1)], 1⟩ 7 tIdx last now).2 = last)) ∧
     (∀ i j li ni lj nj,
        (mayReportCurrentFile ⟨[(1, 2), (3, 1)], 1⟩ 7 i li ni).1 = true →
        (mayReportCurrentFile ⟨[(1, 2), (3, 1)], 1⟩ 7 j lj nj).1 = true → i = j)) :=
  ⟨by decide, progress_serialization_spec ⟨[(1, 2), (3, 1)], 1⟩ 0 4 7 (by decide)⟩

/-- Flattening the bucket map after one insertion appends exactly the inserted
key. -/
theorem addToBuckets_flat (bs : List (String × List DirectoryKey)) (r : String) (k : DirectoryKey) :
    ((addToBuckets bs r k).flatMap (fun b => b.2)).Perm ((bs.flatMap (fun b => b.2)) ++ [k]) := by
  induction bs with
  | nil => simp [addToBuckets]
  | cons a rest ih =>
    obtain ⟨r', ks⟩ := a
    by_cases h1 : r' = r
    · simp only [addToBuckets, if_pos h1, List.flatMap_cons]
      rw [List.append_assoc, List.append_assoc]
      exact List.Perm.append_left ks List.perm_append_comm
    · simp only [addToBuckets, if_neg h1, List.flatMap_cons]
      rw [List.append_assoc]
      exact List.Perm.append_left ks ih

/-- Folding the whole request list into buckets appends exactly those keys. -/
theorem foldl_buckets_flat (l : List DirectoryKey) :
    ∀ bs : List (String × List DirectoryKey),
      ((l.foldl (fun bs k => addToBuckets bs k.folderPath.rootPath k) bs).flatMap
          (fun b => b.2)).Perm ((bs.flatMap (fun b => b.2)) ++ l) := by
  induction l with
  | nil => intro bs; simp
  | cons k l' ih =>
    intro bs
    simp only [List.foldl_cons]
    refine (ih (addToBuckets bs k.folderPath.rootPath k)).trans ?_
    refine (List.Perm.append_right l' (addToBuckets_flat bs _ k)).trans ?_
    rw [List.append_assoc]
    simp

/-- Partition completeness: the keys across the device buckets are exactly the
requested keys. -/
theorem perDeviceFolders_flat (l : List DirectoryKey) :
    ((perDeviceFolders l).flatMap (fun b => b.2)).Perm l := by
  have h := foldl_buckets_flat l []
  simpa [perDeviceFolders] using h

/-- Pre-insertion produces exactly one placeholder entry per requested key. -/
theorem preInsert_keys_perm (l : List DirectoryKey) :
    ((preInsert l).map Prod.fst).Perm l := by
  have h : (preInsert l).map Prod.fst = (perDeviceFolders l).flatMap (fun b => b.2) := by
    simp [preInsert, List.map_flatMap, List.map_map, Function.comp_def]
  rw [h]
  exact perDeviceFolders_flat l

/-- C1: on normal return of fillBuffer the output map has exactly one entry
per input key and no others, regardless of the map's prior contents — its key
list is a permutation of the (duplicate-free) input set and is itself
duplicate-free. -/
theorem fillBuffer_keys_perm (fs : DirectoryKey → FSBase) (filters : Nat → HardFilterModel)
    (foldersToRead : List DirectoryKey) (buf0 : List (DirectoryKey × DirectoryValue))
    (h : foldersToRead.Nodup) :
    (((fillBuffer fs filters foldersToRead buf0).1).map Prod.fst).Perm foldersToRead ∧
    (((fillBuffer fs filters foldersToRead buf0).1).map Prod.fst).Nodup := by
  have hkeys : ((fillBuffer fs filters foldersToRead buf0).1).map Prod.fst =
      (preInsert foldersToRead).map Prod.fst := by
    simp only [fillBuffer, List.map_map]
    rfl
  constructor
  · rw [hkeys]
    exact preInsert_keys_perm foldersToRead
  · rw [hkeys]
    exact ((preInsert_keys_perm foldersToRead).nodup_iff).mpr h

/-- C1 witness: two keys on two devices plus a second key on the first
device. -/
theorem fillBuffer_keys_perm_witness :
    ([keyA, keyB, keyC] : List DirectoryKey).Nodup ∧
    ((((fillBuffer fsEnvOneFile filtersTriv [keyA, keyB, keyC] []).1).map Prod.fst).Perm
       [keyA, keyB, keyC] ∧
     (((fillBuffer fsEnvOneFile filtersTriv [keyA, keyB, keyC] []).1).map Prod.fst).Nodup) :=
  ⟨by decide, fillBuffer_keys_perm fsEnvOneFile filtersTriv [keyA, keyB, keyC] [] (by decide)⟩

/-- A prefix whose elements all satisfy the predicate passes through
takeWhile unchanged. -/
theorem takeWhile_append_all {α : Type} {p : α → Bool} {A l : List α}
    (h : ∀ a ∈ A, p a = true) : (A ++ l).takeWhile p = A ++ l.takeWhile p := by
  induction A with
  | nil => simp
  | cons a A' ih =>
    have ha := h a (List.mem_cons_self _ _)
    simp [List.takeWhile_cons, ha, ih (fun x hx => h x (List.mem_cons_of_mem _ hx))]

/-- Inserted keys of a concatenated trace. -/
theorem insertedKeys_append (A B : List SetupEvent) :
    insertedKeys (A ++ B) = insertedKeys A ++ insertedKeys B := by
  induction A with
  | nil => rfl
  | cons e A' ih => cases e <;> simp [insertedKeys, ih]

/-- Inserted keys of a pure insertion block. -/
theorem insertedKeys_map_insertKey (l : List DirectoryKey) :
    insertedKeys (l.map SetupEvent.insertKey) = l := by
  induction l with
  | nil => rfl
  | cons k l' ih => simp [insertedKeys, ih]

/-- The initialization loop inserts exactly the keys of all device buckets. -/
theorem insertedKeys_setupEventsAux (bs : List (String × List DirectoryKey)) :
    ∀ i0 : Nat, insertedKeys (setupEventsAux i0 bs) = bs.flatMap (fun b => b.2) := by
  induction bs with
  | nil => intro i0; rfl
  | cons b0 rest ih =>
    intro i0
    rw [show setupEventsAux i0 (b0 :: rest) = b0.2.map SetupEvent.insertKey ++
        SetupEvent.spawnWorker i0 :: setupEventsAux (i0 + 1) rest from rfl]
    rw [insertedKeys_append, insertedKeys_map_insertKey]
    simp [insertedKeys, ih, List.flatMap_cons]

/-- Every key of the j-th device bucket is inserted into buf strictly before
the j-th worker is spawned. -/
theorem setupEventsAux_insert_mem_takeWhile (bs : List (String × List DirectoryKey)) :
    ∀ (i0 j : Nat) (b : String × List DirectoryKey), bs[j]? = some b →
      ∀ k ∈ b.2, SetupEvent.insertKey k ∈
        (setupEventsAux i0 bs).takeWhile
          (fun e => e != SetupEvent.spawnWorker (i0 + j)) := by
  induction bs with
  | nil =>
    intro i0 j b hb
    simp at hb
  | cons b0 rest ih =>
    intro i0 j b hb k hk
    have hins : ∀ a ∈ b0.2.map SetupEvent.insertKey,
        (a != SetupEvent.spawnWorker (i0 + j)) = true := by
      intro a ha
      obtain ⟨k', _, rfl⟩ := List.mem_map.mp ha
      simp
    rw [show setupEventsAux i0 (b0 :: rest) = b0.2.map SetupEvent.insertKey ++
        SetupEvent.spawnWorker i0 :: setupEventsAux (i0 + 1) rest from rfl]
    rw [takeWhile_append_all hins]
    cases j with
    | zero =>
      refine List.mem_append.mpr (Or.inl ?_)
      simp only [List.getElem?_cons_zero, Option.some.injEq] at hb
      subst hb
      exact List.mem_map.mpr ⟨k, hk, rfl⟩
    | succ j' =>
      refine List.mem_append.mpr (Or.inr ?_)
      have hne : (SetupEvent.spawnWorker i0 !=
          SetupEvent.spawnWorker (i0 + (j' + 1))) = true := by
        simp only [bne_iff_ne, ne_eq, SetupEvent.spawnWorker.injEq]
        omega
      rw [List.takeWhile_cons]
      simp only [hne, if_true]
      refine List.mem_cons_of_mem _ ?_
      have hb' : rest[j']? = some b := by simpa using hb
      have hmem := ih (i0 + 1) j' b hb' k hk
      simpa [show i0 + 1 + j' = i0 + (j' + 1) from by omega] using hmem

/-- C9 counterexample: with requests on two devices, fillBuffer's
initialization loop inserts the second bucket's placeholder into buf *after*
the first worker has been spawned and is running — so "pre-inserted before any
worker thread is spawned / no structural mutation after the first worker
starts" is false as stated. -/
theorem preinsert_interleaved_cx :
    setupEvents [keyA, keyB] =
      [SetupEvent.insertKey keyA, SetupEvent.spawnWorker 0,
       SetupEvent.insertKey keyB, SetupEvent.spawnWorker 1] ∧
    insertionsPrecedeSpawns (setupEvents [keyA, keyB]) = false :=
  ⟨by decide, by decide⟩

/-- C9 (amended): the pre-insertion is per device bucket — every key of the
j-th bucket has its placeholder inserted into buf strictly before the j-th
worker is spawned, so each worker's slots exist before it starts — and the
workers themselves never structurally mutate buf: the key list of the final
output equals the inserted placeholders, exactly one per requested key. -/
theorem preinsert_frame_per_bucket (fs : DirectoryKey → FSBase)
    (filters : Nat → HardFilterModel) (foldersToRead : List DirectoryKey)
    (buf0 : List (DirectoryKey × DirectoryValue)) (h : foldersToRead.Nodup) :
    (∀ (j : Nat) (b : String × List DirectoryKey),
       (perDeviceFolders foldersToRead)[j]? = some b →
       ∀ k ∈ b.2, SetupEvent.insertKey k ∈
         (setupEvents foldersToRead).takeWhile
           (fun e => e != SetupEvent.spawnWorker j)) ∧
    ((fillBuffer fs filters foldersToRead buf0).1).map Prod.fst =
      insertedKeys (setupEvents foldersToRead) ∧
    (insertedKeys (setupEvents foldersToRead)).Perm foldersToRead ∧
    (insertedKeys (setupEvents foldersToRead)).Nodup := by
  have hflat : insertedKeys (setupEvents foldersToRead) =
      (perDeviceFolders foldersToRead).flatMap (fun b => b.2) :=
    insertedKeys_setupEventsAux (perDeviceFolders foldersToRead) 0
  have hperm : (insertedKeys (setupEvents foldersToRead)).Perm foldersToRead := by
    rw [hflat]
    exact perDeviceFolders_flat foldersToRead
  refine ⟨?_, ?_, hperm, hperm.nodup_iff.mpr h⟩
  · intro j b hb k hk
    have hmem := setupEventsAux_insert_mem_takeWhile
        (perDeviceFolders foldersToRead) 0 j b hb k hk
    simpa [setupEvents] using hmem
  · have h1 : ((fillBuffer fs filters foldersToRead buf0).1).map Prod.fst =
        (preInsert foldersToRead).map Prod.fst := by
      simp only [fillBuffer, List.map_map]
      rfl
    have h2 : (preInsert foldersToRead).map Prod.fst =
        (perDeviceFolders foldersToRead).flatMap (fun b => b.2) := by
      simp [preInsert, List.map_flatMap, List.map_map, Function.comp_def]
    rw [h1, h2, hflat]

/-- C9 witness: the per-bucket frame property at a concrete three-key request
spanning two devices. -/
theorem preinsert_frame_per_bucket_witness :
    ([keyA, keyB, keyC] : List DirectoryKey).Nodup ∧
    ((∀ (j : Nat) (b : String × List DirectoryKey),
        (perDeviceFolders [keyA, keyB, keyC])[j]? = some b →
        ∀ k ∈ b.2, SetupEvent.insertKey k ∈
          (setupEvents [keyA, keyB, keyC]).takeWhile
            (fun e => e != SetupEvent.spawnWorker j)) ∧
     ((fillBuffer fsEnvOneFile filtersTriv [keyA, keyB, keyC] []).1).map Prod.fst =
       insertedKeys (setupEvents [keyA, keyB, keyC]) ∧
     (insertedKeys (setupEvents [keyA, keyB, keyC])).Perm [keyA, keyB, keyC] ∧
     (insertedKeys (setupEvents [keyA, keyB, keyC])).Nodup) :=
  ⟨by decide,
   preinsert_frame_per_bucket fsEnvOneFile filtersTriv [keyA, keyB, keyC] [] (by decide)⟩

/-- Collector distributes over appending sub-folder lists. -/
theorem fcPathsFolders_append (pfx : String) (ds ds' : List (String × Bool × FolderContainer)) :
    fcPathsFolders pfx (ds ++ ds') = fcPathsFolders pfx ds ++ fcPathsFolders pfx ds' := by
  induction ds with
  | nil => simp [fcPathsFolders]
  | cons d rest ih => simp [fcPathsFolders, ih]

/-- The empty node records nothing. -/
theorem fcPaths_empty (pfx : String) : fcPaths pfx FolderContainer.empty = [] := by
  simp [FolderContainer.empty, fcPaths, fcPathsFolders]

/-- Recorded entries after `addSubFile`. -/
theorem mem_fcPaths_addSubFile {x : String × RecKind} {pfx n : String} {a : FileAttributes}
    {fc : FolderContainer} :
    x ∈ fcPaths pfx (fc.addSubFile n a) ↔ x ∈ fcPaths pfx fc ∨ x = (pfx ++ n, RecKind.file) := by
  cases fc with
  | mk fs ls ds =>
    simp only [FolderContainer.addSubFile, fcPaths, List.map_append, List.map_cons,
               List.map_nil, List.mem_append, List.mem_singleton]
    tauto

/-- Recorded entries after `addSubLink`. -/
theorem mem_fcPaths_addSubLink {x : String × RecKind} {pfx n : String} {a : LinkAttributes}
    {fc : FolderContainer} :
    x ∈ fcPaths pfx (fc.addSubLink n a) ↔ x ∈ fcPaths pfx fc ∨ x = (pfx ++ n, RecKind.link) := by
  cases fc with
  | mk fs ls ds =>
    simp only [FolderContainer.addSubLink, fcPaths, List.map_append, List.map_cons,
               List.map_nil, List.mem_append, List.mem_singleton]
    tauto

/-- Recorded entries after `addSubFolder`. -/
theorem mem_fcPaths_addSubFolder {x : String × RecKind} {pfx n : String} {sym : Bool}
    {sub fc : FolderContainer} :
    x ∈ fcPaths pfx (fc.addSubFolder n sym sub) ↔
      x ∈ fcPaths pfx fc ∨ x = (pfx ++ n, RecKind.dir) ∨
        x ∈ fcPaths (pfx ++ n ++ sepS) sub := by
  cases fc with
  | mk fs ls ds =>
    simp only [FolderContainer.addSubFolder, fcPaths, fcPathsFolders_append, fcPathsFolders,
               List.append_nil, List.mem_append, List.mem_cons]
    tauto

/-- Entries recorded by one onFile call either were already present or are the
file just recorded, which passed the file filter. -/
theorem onFile_paths (cfg : TraverserConfig) (pfx n : String) (mt : Int) (sz id : Nat)
    (sym : Bool) (acc : FolderContainer) (st : ScanState) {x : String × RecKind}
    (hx : x ∈ fcPaths pfx (onFile cfg pfx n mt sz id sym acc st).1) :
    x ∈ fcPaths pfx acc ∨
      (x = (pfx ++ n, RecKind.file) ∧ cfg.passFileFilter (pfx ++ n) = true) := by
  by_cases h1 : (zendsWith n SYNC_DB_FILE_ENDING || zendsWith n LOCK_FILE_ENDING) = true
  · exact Or.inl (by simpa [onFile, h1] using hx)
  · by_cases h2 : cfg.passFileFilter (pfx ++ n) = true
    · have hx' : x ∈ fcPaths pfx (acc.addSubFile n ⟨mt, sz, id, sym⟩) := by
        simpa [onFile, h1, h2] using hx
      rcases mem_fcPaths_addSubFile.mp hx' with h | rfl
      · exact Or.inl h
      · exact Or.inr ⟨rfl, h2⟩
    · exact Or.inl (by simpa [onFile, h1, h2] using hx)

/-- Entries recorded by one onSymlink call either were already present or are
the symlink just recorded, which passed the file filter. -/
theorem onSymlink_paths (cfg : TraverserConfig) (pfx n : String) (mt : Int)
    (acc : FolderContainer) (st : ScanState) {x : String × RecKind}
    (hx : x ∈ fcPaths pfx (onSymlink cfg pfx n mt acc st).2.1) :
    x ∈ fcPaths pfx acc ∨
      (x = (pfx ++ n, RecKind.link) ∧ cfg.passFileFilter (pfx ++ n) = true) := by
  cases hs : cfg.handleSymlinks with
  | exclude => exact Or.inl (by simpa [onSymlink, hs] using hx)
  | direct =>
    by_cases h2 : cfg.passFileFilter (pfx ++ n) = true
    · have hx' : x ∈ fcPaths pfx (acc.addSubLink n ⟨mt⟩) := by
        simpa [onSymlink, hs, h2] using hx
      rcases mem_fcPaths_addSubLink.mp hx' with h | rfl
      · exact Or.inl h
      · exact Or.inr ⟨rfl, h2⟩
    · exact Or.inl (by simpa [onSymlink, hs, h2] using hx)
  | follow =>
    refine Or.inl ?_
    by_cases h2 : cfg.passFileFilter (pfx ++ n) = true
    · simpa [onSymlink, hs, h2] using hx
    · by_cases h3 : (!(cfg.passDirFilter (pfx ++ n)).1 && !(cfg.passDirFilter (pfx ++ n)).2) = true
      · simpa [onSymlink, hs, h2, h3] using hx
      · simpa [onSymlink, hs, h2, h3] using hx

mutual

/-- Filter soundness of a whole entry list: everything the traversal adds to
the folder node satisfied its filter's positive or might-match test. -/
theorem travEntries_filter_sound (cfg : TraverserConfig) (pfx : String) (level : Nat)
    (es : List FSEntry) (acc : FolderContainer) (st : ScanState) :
    ∀ x ∈ fcPaths pfx (traverseEntries cfg pfx level es acc st).1,
      x ∈ fcPaths pfx acc ∨ filterOKPath cfg x.1 x.2 := by
  match es with
  | [] =>
    intro x hx
    exact Or.inl (by simpa [traverseEntries] using hx)
  | e :: rest =>
    intro x hx
    simp only [traverseEntries] at hx
    rcases travEntries_filter_sound cfg pfx level rest _ _ x hx with hx1 | hok
    · rcases travEntry_filter_sound cfg pfx level e acc st x hx1 with h | h
      · exact Or.inl h
      · exact Or.inr h
    · exact Or.inr hok

/-- Filter soundness of a single delivered entry. -/
theorem travEntry_filter_sound (cfg : TraverserConfig) (pfx : String) (level : Nat)
    (e : FSEntry) (acc : FolderContainer) (st : ScanState) :
    ∀ x ∈ fcPaths pfx (traverseEntry cfg pfx level e acc st).1,
      x ∈ fcPaths pfx acc ∨ filterOKPath cfg x.1 x.2 := by
  match e with
  | FSEntry.file n mt sz id sym =>
    intro x hx
    rcases onFile_paths cfg pfx n mt sz id sym acc st
        (by simpa [traverseEntry] using hx) with h | ⟨rfl, hf⟩
    · exact Or.inl h
    · exact Or.inr hf
  | FSEntry.symlink n mt =>
    intro x hx
    rcases onSymlink_paths cfg pfx n mt acc st
        (by simpa [traverseEntry] using hx) with h | ⟨rfl, hf⟩
    · exact Or.inl h
    · exact Or.inr hf
  | FSEntry.probeFail n msg =>
    intro x hx
    exact Or.inl (by simpa [traverseEntry] using hx)
  | FSEntry.folder n sym enumErr content =>
    intro x hx
    by_cases h1 : (!(cfg.passDirFilter (pfx ++ n)).1 && !(cfg.passDirFilter (pfx ++ n)).2) = true
    · exact Or.inl (by simpa [traverseEntry, onFolder, h1] using hx)
    · have hadmit : (cfg.passDirFilter (pfx ++ n)).1 = true ∨
          (cfg.passDirFilter (pfx ++ n)).2 = true := by
        rcases Bool.eq_false_or_eq_true (cfg.passDirFilter (pfx ++ n)).1 with ha | ha
        · exact Or.inl ha
        · rcases Bool.eq_false_or_eq_true (cfg.passDirFilter (pfx ++ n)).2 with hb | hb
          · exact Or.inr hb
          · exact absurd (by simp [ha, hb]) h1
      have hdirOK : filterOKPath cfg (pfx ++ n) RecKind.dir := hadmit
      by_cases h2 : level > 100
      · have hx' : x ∈ fcPaths pfx (acc.addSubFolder n sym FolderContainer.empty) := by
          simpa [traverseEntry, onFolder, h1, h2] using hx
        rcases mem_fcPaths_addSubFolder.mp hx' with h | rfl | h
        · exact Or.inl h
        · exact Or.inr hdirOK
        · simp [fcPaths_empty] at h
      · cases enumErr with
        | some msg =>
          have hx' : x ∈ fcPaths pfx (acc.addSubFolder n sym FolderContainer.empty) := by
            simpa [traverseEntry, onFolder, h1, h2] using hx
          rcases mem_fcPaths_addSubFolder.mp hx' with h | rfl | h
          · exact Or.inl h
          · exact Or.inr hdirOK
          · simp [fcPaths_empty] at h
        | none =>
          have hx' : x ∈ fcPaths pfx (acc.addSubFolder n sym
              (traverseEntries cfg (pfx ++ n ++ sepS) (level + 1) content
                FolderContainer.empty
                (if (cfg.passDirFilter (pfx ++ n)).1 then
                   { st with itemsScanned := st.itemsScanned + 1 } else st)).1) := by
            simpa [traverseEntry, onFolder, h1, h2] using hx
          rcases mem_fcPaths_addSubFolder.mp hx' with h | rfl | h
          · exact Or.inl h
          · exact Or.inr hdirOK
          · rcases travEntries_filter_sound cfg (pfx ++ n ++ sepS) (level + 1) content
                FolderContainer.empty _ x h with h0 | h0
            · simp [fcPaths_empty] at h0
            · exact Or.inr h0

end

/-- C4 counterexample: with a directory filter returning (passed = false,
mightContainMatches = true), the directory node is still added to the tree —
so "directory nodes are added only when passDirFilter(relPath) is true" is
false as stated. -/
theorem filter_soundness_dir_cx :
    ("a", RecKind.dir) ∈ fcPaths "" (scanBase cfgMaybeDir fsOneFolder).1.folderCont ∧
    (cfgMaybeDir.passDirFilter "a").1 = false :=
  ⟨by decide, by decide⟩

/-- C4 (amended): every file or symlink in the output satisfied passFileFilter
on its relative path, and every directory node satisfied passDirFilter or was
admitted because the filter reported the subtree might contain matches. -/
theorem filter_soundness (cfg : TraverserConfig) (base : FSBase) (x : String × RecKind)
    (hx : x ∈ fcPaths "" (scanBase cfg base).1.folderCont) :
    filterOKPath cfg x.1 x.2 := by
  cases hroot : base.rootEnumError with
  | some msg =>
    rw [show (scanBase cfg base).1.folderCont = FolderContainer.empty from by
      simp [scanBase, hroot]] at hx
    simp [fcPaths_empty] at hx
  | none =>
    rw [show (scanBase cfg base).1.folderCont =
        (traverseEntries cfg "" 0 base.entries FolderContainer.empty ScanState.empty).1 from by
      simp [scanBase, hroot]] at hx
    rcases travEntries_filter_sound cfg "" 0 base.entries FolderContainer.empty
        ScanState.empty x hx with h1 | h1
    · simp [fcPaths_empty] at h1
    · exact h1

/-- C4 witness: a recorded file at a concrete scan satisfied the file
filter. -/
theorem filter_soundness_witness :
    ("a.txt", RecKind.file) ∈ fcPaths "" (scanBase cfgAll fsMixed).1.folderCont ∧
    filterOKPath cfgAll "a.txt" RecKind.file :=
  ⟨by decide, filter_soundness cfgAll fsMixed ("a.txt", RecKind.file) (by decide)⟩

/-- String equality follows from equality of the underlying character
lists. -/
theorem stringDataInj {s t : String} (h : s.data = t.data) : s = t := by
  cases s
  cases t
  exact congrArg String.mk h

/-- The separator string is the one-character list of the separator. -/
theorem sepS_data : sepS.data = [sepChar] := rfl

/-- Separator-freedom gives non-membership of the separator. -/
theorem sepFree_not_mem {l : List Char} (h : sepFree l = true) : sepChar ∉ l := by
  induction l with
  | nil => simp
  | cons a r ih =>
    simp only [sepFree, Bool.and_eq_true, bne_iff_ne] at h
    simp only [List.mem_cons, not_or]
    exact ⟨fun he => h.1 he.symm, ih h.2⟩

/-- A good name avoids the separator. -/
theorem goodName_not_mem {n : String} (h : goodName n = true) : sepChar ∉ n.data := by
  simp only [goodName, Bool.and_eq_true] at h
  exact sepFree_not_mem h.1

/-- A good name is nonempty. -/
theorem goodName_ne_nil {n : String} (h : goodName n = true) : n.data ≠ [] := by
  simp only [goodName, Bool.and_eq_true, Bool.not_eq_true'] at h
  simpa [List.isEmpty_iff] using h.2

/-- Character-level view of `joinComps`. -/
theorem joinComps_data (c : List String) :
    (joinComps c).data = joinCharC (c.map String.data) := by
  induction c with
  | nil => rfl
  | cons x r ih =>
    simp [joinComps, joinCharC, String.data_append, sepS_data, ih]

/-- Splitting at the first separator occurrence is unambiguous. -/
theorem sepSplit_inj : ∀ (u1 u2 v1 v2 : List Char), sepChar ∉ u1 → sepChar ∉ u2 →
    u1 ++ sepChar :: v1 = u2 ++ sepChar :: v2 → u1 = u2 ∧ v1 = v2 := by
  intro u1
  induction u1 with
  | nil =>
    intro u2 v1 v2 h1 h2 heq
    cases u2 with
    | nil => simpa using heq
    | cons b u2' =>
      simp only [List.nil_append, List.cons_append, List.cons.injEq] at heq
      exact absurd (heq.1 ▸ List.mem_cons_self b u2') h2
  | cons a u1' ih =>
    intro u2 v1 v2 h1 h2 heq
    cases u2 with
    | nil =>
      simp only [List.nil_append, List.cons_append, List.cons.injEq] at heq
      exact absurd (heq.1.symm ▸ List.mem_cons_self a u1') h1
    | cons b u2' =>
      simp only [List.cons_append, List.cons.injEq] at heq
      obtain ⟨rfl, heq2⟩ := heq
      have h1' : sepChar ∉ u1' := fun hm => h1 (List.mem_cons_of_mem _ hm)
      have h2' : sepChar ∉ u2' := fun hm => h2 (List.mem_cons_of_mem _ hm)
      obtain ⟨rfl, hv⟩ := ih u2' v1 v2 h1' h2' heq2
      exact ⟨rfl, hv⟩

/-- Injectivity of the (components, name) decomposition of a relative path,
at character level: with separator-free chunks, equal paths have equal
component lists and names. -/
theorem joinCharC_inj : ∀ (cs1 cs2 : List (List Char)) (n1 n2 : List Char),
    (∀ u ∈ cs1, sepChar ∉ u) → (∀ u ∈ cs2, sepChar ∉ u) → sepChar ∉ n1 → sepChar ∉ n2 →
    joinCharC cs1 ++ n1 = joinCharC cs2 ++ n2 → cs1 = cs2 ∧ n1 = n2 := by
  intro cs1
  induction cs1 with
  | nil =>
    intro cs2 n1 n2 h1 h2 g1 g2 heq
    cases cs2 with
    | nil => exact ⟨rfl, by simpa using heq⟩
    | cons u cs2' =>
      exfalso
      apply g1
      rw [show n1 = u ++ sepChar :: (joinCharC cs2' ++ n2) from by
        simpa [joinCharC, List.append_assoc] using heq]
      simp
  | cons u1 cs1' ih =>
    intro cs2 n1 n2 h1 h2 g1 g2 heq
    cases cs2 with
    | nil =>
      exfalso
      apply g2
      rw [show n2 = u1 ++ sepChar :: (joinCharC cs1' ++ n1) from by
        simpa [joinCharC, List.append_assoc] using heq.symm]
      simp
    | cons u2 cs2' =>
      simp only [joinCharC, List.cons_append, List.append_assoc] at heq
      obtain ⟨rfl, htail⟩ := sepSplit_inj u1 u2 _ _ (h1 u1 (by simp)) (h2 u2 (by simp)) heq
      obtain ⟨hcs, hn⟩ := ih cs2' n1 n2 (fun u hu => h1 u (List.mem_cons_of_mem _ hu))
        (fun u hu => h2 u (List.mem_cons_of_mem _ hu)) g1 g2 htail
      exact ⟨by rw [hcs], hn⟩

/-- Injectivity of the (components, name) decomposition of a relative path
built by the traversal prefixes. -/
theorem joinComps_inj {c1 c2 : List String} {n1 n2 : String}
    (h1 : ∀ x ∈ c1, goodName x = true) (h2 : ∀ x ∈ c2, goodName x = true)
    (g1 : goodName n1 = true) (g2 : goodName n2 = true)
    (heq : joinComps c1 ++ n1 = joinComps c2 ++ n2) : c1 = c2 ∧ n1 = n2 := by
  have hd : (joinComps c1 ++ n1).data = (joinComps c2 ++ n2).data := by rw [heq]
  rw [String.data_append, String.data_append, joinComps_data, joinComps_data] at hd
  obtain ⟨hcs, hn⟩ := joinCharC_inj (c1.map String.data) (c2.map String.data) n1.data n2.data
    (fun u hu => by
      obtain ⟨x, hx, rfl⟩ := List.mem_map.mp hu
      exact goodName_not_mem (h1 x hx))
    (fun u hu => by
      obtain ⟨x, hx, rfl⟩ := List.mem_map.mp hu
      exact goodName_not_mem (h2 x hx))
    (goodName_not_mem g1) (goodName_not_mem g2) hd
  refine ⟨?_, stringDataInj hn⟩
  exact List.map_injective_iff.mpr (fun a b hab => stringDataInj hab) hcs

/-- Extending the component list extends the separator-postfixed prefix. -/
theorem joinComps_append_single (c : List String) (n : String) :
    joinComps (c ++ [n]) = joinComps c ++ n ++ sepS := by
  induction c with
  | nil => simp [joinComps]
  | cons x r ih => simp [joinComps, ih, String.append_assoc]

/-- Everything before the trailing separator. -/
theorem beforeLastChar_concat (c : Char) (u : List Char) :
    beforeLastChar c (u ++ [c]) = u := by
  induction u with
  | nil => simp [beforeLastChar]
  | cons a r ih =>
    have hm : c ∈ r ++ [c] := by simp
    simp [beforeLastChar, hm, ih]

/-- `beforeLast` with the missing-returns-none policy strips a trailing
separator. -/
theorem beforeLastSep_append_sep (s : String) : beforeLastSep (s ++ sepS) = s := by
  have hd : (s ++ sepS).data = s.data ++ [sepChar] := by
    rw [String.data_append, sepS_data]
  unfold beforeLastSep
  rw [hd, beforeLastChar_concat]

/-- Keys after a map write come from the old keys or are the written key. -/
theorem mem_mapKeys_mapSet {m : List (String × String)} {k v p : String}
    (h : p ∈ mapKeys (mapSet m k v)) : p ∈ mapKeys m ∨ p = k := by
  induction m with
  | nil =>
    simp [mapSet, mapKeys] at h
    tauto
  | cons a rest ih =>
    obtain ⟨k', v'⟩ := a
    by_cases h1 : k' = k
    · simp only [mapSet, if_pos h1, mapKeys, List.map_cons, List.mem_cons] at h ⊢
      rcases h with h | h
      · tauto
      · tauto
    · simp only [mapSet, if_neg h1, mapKeys, List.map_cons, List.mem_cons] at h ⊢
      rcases h with h | h
      · tauto
      · rcases ih h with h | h <;> tauto

/-- onFile never touches the error maps. -/
theorem onFile_failed (cfg : TraverserConfig) (pfx n : String) (mt : Int) (sz id : Nat)
    (sym : Bool) (acc : FolderContainer) (st : ScanState) :
    (onFile cfg pfx n mt sz id sym acc st).2.failedDirReads = st.failedDirReads ∧
    (onFile cfg pfx n mt sz id sym acc st).2.failedItemReads = st.failedItemReads := by
  by_cases h1 : (zendsWith n SYNC_DB_FILE_ENDING || zendsWith n LOCK_FILE_ENDING) = true
  · simp [onFile, h1]
  · by_cases h2 : cfg.passFileFilter (pfx ++ n) = true
    · simp [onFile, h1, h2]
    · simp [onFile, h1, h2]

/-- onSymlink never touches the error maps. -/
theorem onSymlink_failed (cfg : TraverserConfig) (pfx n : String) (mt : Int)
    (acc : FolderContainer) (st : ScanState) :
    (onSymlink cfg pfx n mt acc st).2.2.failedDirReads = st.failedDirReads ∧
    (onSymlink cfg pfx n mt acc st).2.2.failedItemReads = st.failedItemReads := by
  cases hs : cfg.handleSymlinks with
  | exclude => simp [onSymlink, hs]
  | direct =>
    by_cases h2 : cfg.passFileFilter (pfx ++ n) = true
    · simp [onSymlink, hs, h2]
    · simp [onSymlink, hs, h2]
  | follow =>
    by_cases h2 : cfg.passFileFilter (pfx ++ n) = true
    · simp [onSymlink, hs, h2]
    · by_cases h3 : (!(cfg.passDirFilter (pfx ++ n)).1 && !(cfg.passDirFilter (pfx ++ n)).2) = true
      · simp [onSymlink, hs, h2, h3]
      · simp [onSymlink, hs, h2, h3]

/-- Unpacking well-formedness of a nonempty entry list. -/
theorem wfEntries_cons {e : FSEntry} {rest : List FSEntry} (h : wfEntries (e :: rest) = true) :
    wfEntry e = true ∧ entryName e ∉ rest.map entryName ∧ wfEntries rest = true := by
  simp only [wfEntries, Bool.and_eq_true] at h
  refine ⟨h.1.1, ?_, h.2⟩
  have hc := h.1.2
  simp only [Bool.not_eq_true'] at hc
  intro hm
  simp only [List.contains, List.elem_eq_mem] at hc
  simp [hm] at hc

/-- Unpacking well-formedness of a folder entry. -/
theorem wfEntry_folder {n : String} {sym : Bool} {err : Option String}
    {content : List FSEntry} (h : wfEntry (FSEntry.folder n sym err content) = true) :
    goodName n = true ∧ wfEntries content = true := by
  simpa [wfEntry, Bool.and_eq_true] using h

/-- A well-formed entry carries a good name. -/
theorem wfEntry_goodName {e : FSEntry} (h : wfEntry e = true) :
    goodName (entryName e) = true := by
  cases e <;> simp_all [wfEntry, entryName, Bool.and_eq_true]

mutual

/-- Shape of the slots of an entry list: either directly in this directory
with a delivered name, or below one of the delivered names. -/
theorem fsSlots_shape (c : List String) (es : List FSEntry) :
    ∀ s ∈ fsSlots c es,
      (s.1 = c ∧ s.2.1 ∈ es.map entryName) ∨
      (∃ m ext, s.1 = c ++ m :: ext ∧ m ∈ es.map entryName) := by
  match es with
  | [] =>
    intro s hs
    simp [fsSlots] at hs
  | e :: rest =>
    intro s hs
    rw [show fsSlots c (e :: rest) = fsSlotsEntry c e ++ fsSlots c rest from rfl] at hs
    rcases List.mem_append.mp hs with hs | hs
    · rcases fsSlotsEntry_shape c e s hs with ⟨h1, h2⟩ | ⟨ext, h1⟩
      · exact Or.inl ⟨h1, by simp [h2]⟩
      · exact Or.inr ⟨entryName e, ext, h1, by simp⟩
    · rcases fsSlots_shape c rest s hs with ⟨h1, h2⟩ | ⟨m, ext, h1, h2⟩
      · refine Or.inl ⟨h1, ?_⟩
        simp only [List.map_cons, List.mem_cons]
        exact Or.inr h2
      · refine Or.inr ⟨m, ext, h1, ?_⟩
        simp only [List.map_cons, List.mem_cons]
        exact Or.inr h2

/-- Shape of the slots of a single entry. -/
theorem fsSlotsEntry_shape (c : List String) (e : FSEntry) :
    ∀ s ∈ fsSlotsEntry c e,
      (s.1 = c ∧ s.2.1 = entryName e) ∨ (∃ ext, s.1 = c ++ entryName e :: ext) := by
  match e with
  | FSEntry.file n mt sz id sym =>
    intro s hs
    simp only [fsSlotsEntry, List.mem_singleton] at hs
    subst hs
    exact Or.inl ⟨rfl, rfl⟩
  | FSEntry.symlink n mt =>
    intro s hs
    simp only [fsSlotsEntry, List.mem_singleton] at hs
    subst hs
    exact Or.inl ⟨rfl, rfl⟩
  | FSEntry.probeFail n msg =>
    intro s hs
    simp only [fsSlotsEntry, List.mem_singleton] at hs
    subst hs
    exact Or.inl ⟨rfl, rfl⟩
  | FSEntry.folder n sym err content =>
    intro s hs
    rw [show fsSlotsEntry c (FSEntry.folder n sym err content) =
        (c, n, FSKind.dirK) :: fsSlots (c ++ [n]) content from rfl] at hs
    rcases List.mem_cons.mp hs with rfl | hs
    · exact Or.inl ⟨rfl, rfl⟩
    · rcases fsSlots_shape (c ++ [n]) content s hs with ⟨h1, _⟩ | ⟨m, ext, h1, _⟩
      · exact Or.inr ⟨[], by simpa using h1⟩
      · exact Or.inr ⟨m :: ext, by simpa [List.append_assoc] using h1⟩

end

mutual

/-- Goodness of every slot of a well-formed entry list. -/
theorem fsSlots_good (c : List String) (es : List FSEntry)
    (hg : ∀ x ∈ c, goodName x = true) (hwf : wfEntries es = true) :
    ∀ s ∈ fsSlots c es, (∀ x ∈ s.1, goodName x = true) ∧ goodName s.2.1 = true := by
  match es with
  | [] =>
    intro s hs
    simp [fsSlots] at hs
  | e :: rest =>
    intro s hs
    obtain ⟨hwe, _, hwrest⟩ := wfEntries_cons hwf
    rw [show fsSlots c (e :: rest) = fsSlotsEntry c e ++ fsSlots c rest from rfl] at hs
    rcases List.mem_append.mp hs with hs | hs
    · exact fsSlotsEntry_good c e hg hwe s hs
    · exact fsSlots_good c rest hg hwrest s hs

/-- Goodness of every slot of a single well-formed entry. -/
theorem fsSlotsEntry_good (c : List String) (e : FSEntry)
    (hg : ∀ x ∈ c, goodName x = true) (hwf : wfEntry e = true) :
    ∀ s ∈ fsSlotsEntry c e, (∀ x ∈ s.1, goodName x = true) ∧ goodName s.2.1 = true := by
  match e with
  | FSEntry.file n mt sz id sym =>
    intro s hs
    simp only [fsSlotsEntry, List.mem_singleton] at hs
    subst hs
    exact ⟨hg, wfEntry_goodName hwf⟩
  | FSEntry.symlink n mt =>
    intro s hs
    simp only [fsSlotsEntry, List.mem_singleton] at hs
    subst hs
    exact ⟨hg, wfEntry_goodName hwf⟩
  | FSEntry.probeFail n msg =>
    intro s hs
    simp only [fsSlotsEntry, List.mem_singleton] at hs
    subst hs
    exact ⟨hg, wfEntry_goodName hwf⟩
  | FSEntry.folder n sym err content =>
    intro s hs
    obtain ⟨hgn, hwc⟩ := wfEntry_folder hwf
    rw [show fsSlotsEntry c (FSEntry.folder n sym err content) =
        (c, n, FSKind.dirK) :: fsSlots (c ++ [n]) content from rfl] at hs
    rcases List.mem_cons.mp hs with rfl | hs
    · exact ⟨hg, hgn⟩
    · refine fsSlots_good (c ++ [n]) content ?_ hwc s hs
      intro x hx
      rcases List.mem_append.mp hx with hx | hx
      · exact hg x hx
      · rw [List.mem_singleton.mp hx]
        exact hgn

end

mutual

/-- In a well-formed tree, distinct slots have distinct relative paths. -/
theorem fsSlots_paths_nodup (c : List String) (es : List FSEntry)
    (hg : ∀ x ∈ c, goodName x = true) (hwf : wfEntries es = true) :
    ((fsSlots c es).map slotPath).Nodup := by
  match es with
  | [] => simp [fsSlots]
  | e :: rest =>
    obtain ⟨hwe, hnm, hwrest⟩ := wfEntries_cons hwf
    rw [show fsSlots c (e :: rest) = fsSlotsEntry c e ++ fsSlots c rest from rfl,
        List.map_append, List.nodup_append]
    refine ⟨fsSlotsEntry_paths_nodup c e hg hwe, fsSlots_paths_nodup c rest hg hwrest, ?_⟩
    intro p hpA hpB
    obtain ⟨s1, hs1, rfl⟩ := List.mem_map.mp hpA
    obtain ⟨s2, hs2, hp2⟩ := List.mem_map.mp hpB
    obtain ⟨hg1c, hg1n⟩ := fsSlotsEntry_good c e hg hwe s1 hs1
    obtain ⟨hg2c, hg2n⟩ := fsSlots_good c rest hg hwrest s2 hs2
    obtain ⟨hc12, hn12⟩ := joinComps_inj hg1c hg2c hg1n hg2n hp2.symm
    rcases fsSlotsEntry_shape c e s1 hs1 with ⟨hA1, hA2⟩ | ⟨ext, hA1⟩ <;>
      rcases fsSlots_shape c rest s2 hs2 with ⟨hB1, hB2⟩ | ⟨m, ext', hB1, hB2⟩
    · apply hnm
      rw [← hA2, hn12]
      exact hB2
    · have he : c = c ++ m :: ext' := hA1.symm.trans (hc12.trans hB1)
      have hlen := congrArg List.length he
      simp at hlen
    · have he : c ++ entryName e :: ext = c := hA1.symm.trans (hc12.trans hB1)
      have hlen := congrArg List.length he
      simp at hlen
    · have he : c ++ entryName e :: ext = c ++ m :: ext' := hA1.symm.trans (hc12.trans hB1)
      have he2 := List.append_cancel_left he
      apply hnm
      rw [List.cons.injEq] at he2
      rw [he2.1]
      exact hB2

/-- Distinct relative paths for the slots of a single well-formed entry. -/
theorem fsSlotsEntry_paths_nodup (c : List String) (e : FSEntry)
    (hg : ∀ x ∈ c, goodName x = true) (hwf : wfEntry e = true) :
    ((fsSlotsEntry c e).map slotPath).Nodup := by
  match e with
  | FSEntry.file n mt sz id sym => simp [fsSlotsEntry]
  | FSEntry.symlink n mt => simp [fsSlotsEntry]
  | FSEntry.probeFail n msg => simp [fsSlotsEntry]
  | FSEntry.folder n sym err content =>
    obtain ⟨hgn, hwc⟩ := wfEntry_folder hwf
    have hgc : ∀ x ∈ c ++ [n], goodName x = true := by
      intro x hx
      rcases List.mem_append.mp hx with hx | hx
      · exact hg x hx
      · rw [List.mem_singleton.mp hx]
        exact hgn
    rw [show fsSlotsEntry c (FSEntry.folder n sym err content) =
        (c, n, FSKind.dirK) :: fsSlots (c ++ [n]) content from rfl,
        List.map_cons, List.nodup_cons]
    refine ⟨?_, fsSlots_paths_nodup (c ++ [n]) content hgc hwc⟩
    intro hmem
    obtain ⟨s2, hs2, hp2⟩ := List.mem_map.mp hmem
    obtain ⟨hg2c, hg2n⟩ := fsSlots_good (c ++ [n]) content hgc hwc s2 hs2
    obtain ⟨hc12, _⟩ := joinComps_inj hg2c hg hg2n hgn hp2
    rcases fsSlots_shape (c ++ [n]) content s2 hs2 with ⟨hB1, _⟩ | ⟨m, ext', hB1, _⟩
    · have he : c ++ [n] = c := hB1.symm.trans hc12
      have hlen := congrArg List.length he
      simp at hlen
    · have he : c ++ [n] ++ m :: ext' = c := hB1.symm.trans hc12
      have hlen := congrArg List.length he
      simp at hlen

end

/-- The itemsScanned bump of onFolder leaves the item-error map unchanged. -/
theorem scanIf_failedItemReads (b : Bool) (st : ScanState) :
    (if b = true then { st with itemsScanned := st.itemsScanned + 1 } else st).failedItemReads =
      st.failedItemReads := by
  split <;> rfl

/-- The itemsScanned bump of onFolder leaves the folder-error map unchanged. -/
theorem scanIf_failedDirReads (b : Bool) (st : ScanState) :
    (if b = true then { st with itemsScanned := st.itemsScanned + 1 } else st).failedDirReads =
      st.failedDirReads := by
  split <;> rfl

mutual

/-- Slot origin of everything a traversal of an entry list produces: recorded
entries come from slots of the corresponding kind, failed-item keys from
probe-failure or folder slots, failed-folder keys from folder slots. -/
theorem travEntries_slots (cfg : TraverserConfig) (c : List String) (level : Nat)
    (es : List FSEntry) (acc : FolderContainer) (st : ScanState) :
    (∀ x ∈ fcPaths (joinComps c) (traverseEntries cfg (joinComps c) level es acc st).1,
        x ∈ fcPaths (joinComps c) acc ∨
        ∃ s ∈ fsSlots c es, x.1 = slotPath s ∧ recOfFs s.2.2 = some x.2) ∧
    (∀ p ∈ mapKeys (traverseEntries cfg (joinComps c) level es acc st).2.failedItemReads,
        p ∈ mapKeys st.failedItemReads ∨
        ∃ s ∈ fsSlots c es, p = slotPath s ∧ (s.2.2 = FSKind.errK ∨ s.2.2 = FSKind.dirK)) ∧
    (∀ p ∈ mapKeys (traverseEntries cfg (joinComps c) level es acc st).2.failedDirReads,
        p ∈ mapKeys st.failedDirReads ∨
        ∃ s ∈ fsSlots c es, p = slotPath s ∧ s.2.2 = FSKind.dirK) := by
  match es with
  | [] =>
    refine ⟨fun x hx => Or.inl (by simpa [traverseEntries] using hx),
            fun p hp => Or.inl (by simpa [traverseEntries] using hp),
            fun p hp => Or.inl (by simpa [traverseEntries] using hp)⟩
  | e :: rest =>
    obtain ⟨ha1, hb1, hc1⟩ := travEntry_slots cfg c level e acc st
    obtain ⟨ha2, hb2, hc2⟩ := travEntries_slots cfg c level rest
        (traverseEntry cfg (joinComps c) level e acc st).1
        (traverseEntry cfg (joinComps c) level e acc st).2
    have hsplit : fsSlots c (e :: rest) = fsSlotsEntry c e ++ fsSlots c rest := rfl
    have hstep : traverseEntries cfg (joinComps c) level (e :: rest) acc st =
        traverseEntries cfg (joinComps c) level rest
          (traverseEntry cfg (joinComps c) level e acc st).1
          (traverseEntry cfg (joinComps c) level e acc st).2 := rfl
    refine ⟨?_, ?_, ?_⟩
    · intro x hx
      rw [hstep] at hx
      rcases ha2 x hx with h | ⟨s, hs, h1, h2⟩
      · rcases ha1 x h with h | ⟨s, hs, h1, h2⟩
        · exact Or.inl h
        · exact Or.inr ⟨s, by rw [hsplit]; exact List.mem_append.mpr (Or.inl hs), h1, h2⟩
      · exact Or.inr ⟨s, by rw [hsplit]; exact List.mem_append.mpr (Or.inr hs), h1, h2⟩
    · intro p hp
      rw [hstep] at hp
      rcases hb2 p hp with h | ⟨s, hs, h1, h2⟩
      · rcases hb1 p h with h | ⟨s, hs, h1, h2⟩
        · exact Or.inl h
        · exact Or.inr ⟨s, by rw [hsplit]; exact List.mem_append.mpr (Or.inl hs), h1, h2⟩
      · exact Or.inr ⟨s, by rw [hsplit]; exact List.mem_append.mpr (Or.inr hs), h1, h2⟩
    · intro p hp
      rw [hstep] at hp
      rcases hc2 p hp with h | ⟨s, hs, h1, h2⟩
      · rcases hc1 p h with h | ⟨s, hs, h1, h2⟩
        · exact Or.inl h
        · exact Or.inr ⟨s, by rw [hsplit]; exact List.mem_append.mpr (Or.inl hs), h1, h2⟩
      · exact Or.inr ⟨s, by rw [hsplit]; exact List.mem_append.mpr (Or.inr hs), h1, h2⟩

/-- Slot origin of everything a single delivered entry produces. -/
theorem travEntry_slots (cfg : TraverserConfig) (c : List String) (level : Nat)
    (e : FSEntry) (acc : FolderContainer) (st : ScanState) :
    (∀ x ∈ fcPaths (joinComps c) (traverseEntry cfg (joinComps c) level e acc st).1,
        x ∈ fcPaths (joinComps c) acc ∨
        ∃ s ∈ fsSlotsEntry c e, x.1 = slotPath s ∧ recOfFs s.2.2 = some x.2) ∧
    (∀ p ∈ mapKeys (traverseEntry cfg (joinComps c) level e acc st).2.failedItemReads,
        p ∈ mapKeys st.failedItemReads ∨
        ∃ s ∈ fsSlotsEntry c e, p = slotPath s ∧ (s.2.2 = FSKind.errK ∨ s.2.2 = FSKind.dirK)) ∧
    (∀ p ∈ mapKeys (traverseEntry cfg (joinComps c) level e acc st).2.failedDirReads,
        p ∈ mapKeys st.failedDirReads ∨
        ∃ s ∈ fsSlotsEntry c e, p = slotPath s ∧ s.2.2 = FSKind.dirK) := by
  match e with
  | FSEntry.file n mt sz id sym =>
    refine ⟨?_, ?_, ?_⟩
    · intro x hx
      rcases onFile_paths cfg (joinComps c) n mt sz id sym acc st
          (by simpa [traverseEntry] using hx) with h | ⟨rfl, _⟩
      · exact Or.inl h
      · exact Or.inr ⟨(c, n, FSKind.fileK), by simp [fsSlotsEntry], rfl, rfl⟩
    · intro p hp
      have he : (traverseEntry cfg (joinComps c) level (FSEntry.file n mt sz id sym)
          acc st).2.failedItemReads = st.failedItemReads :=
        (onFile_failed cfg (joinComps c) n mt sz id sym acc st).2
      rw [he] at hp
      exact Or.inl hp
    · intro p hp
      have he : (traverseEntry cfg (joinComps c) level (FSEntry.file n mt sz id sym)
          acc st).2.failedDirReads = st.failedDirReads :=
        (onFile_failed cfg (joinComps c) n mt sz id sym acc st).1
      rw [he] at hp
      exact Or.inl hp
  | FSEntry.symlink n mt =>
    refine ⟨?_, ?_, ?_⟩
    · intro x hx
      rcases onSymlink_paths cfg (joinComps c) n mt acc st
          (by simpa [traverseEntry] using hx) with h | ⟨rfl, _⟩
      · exact Or.inl h
      · exact Or.inr ⟨(c, n, FSKind.linkK), by simp [fsSlotsEntry], rfl, rfl⟩
    · intro p hp
      have he : (traverseEntry cfg (joinComps c) level (FSEntry.symlink n mt)
          acc st).2.failedItemReads = st.failedItemReads :=
        (onSymlink_failed cfg (joinComps c) n mt acc st).2
      rw [he] at hp
      exact Or.inl hp
    · intro p hp
      have he : (traverseEntry cfg (joinComps c) level (FSEntry.symlink n mt)
          acc st).2.failedDirReads = st.failedDirReads :=
        (onSymlink_failed cfg (joinComps c) n mt acc st).1
      rw [he] at hp
      exact Or.inl hp
  | FSEntry.probeFail n msg =>
    refine ⟨?_, ?_, ?_⟩
    · intro x hx
      exact Or.inl (by simpa [traverseEntry] using hx)
    · intro p hp
      have he : (traverseEntry cfg (joinComps c) level (FSEntry.probeFail n msg)
          acc st).2.failedItemReads = mapSet st.failedItemReads (joinComps c ++ n) msg := rfl
      rw [he] at hp
      rcases mem_mapKeys_mapSet hp with h | rfl
      · exact Or.inl h
      · exact Or.inr ⟨(c, n, FSKind.errK), by simp [fsSlotsEntry], rfl, Or.inl rfl⟩
    · intro p hp
      have he : (traverseEntry cfg (joinComps c) level (FSEntry.probeFail n msg)
          acc st).2.failedDirReads = st.failedDirReads := rfl
      rw [he] at hp
      exact Or.inl hp
  | FSEntry.folder n sym enumErr content =>
    by_cases h1 : (!(cfg.passDirFilter (joinComps c ++ n)).1 &&
                   !(cfg.passDirFilter (joinComps c ++ n)).2) = true
    · refine ⟨fun x hx => Or.inl (by simpa [traverseEntry, onFolder, h1] using hx),
              fun p hp => Or.inl (by simpa [traverseEntry, onFolder, h1] using hp),
              fun p hp => Or.inl (by simpa [traverseEntry, onFolder, h1] using hp)⟩
    · have hdirslot : (c, n, FSKind.dirK) ∈
          fsSlotsEntry c (FSEntry.folder n sym enumErr content) := by
        simp [fsSlotsEntry]
      by_cases h2 : level > 100
      · refine ⟨?_, ?_, ?_⟩
        · intro x hx
          have hx' : x ∈ fcPaths (joinComps c) (acc.addSubFolder n sym FolderContainer.empty) := by
            simpa [traverseEntry, onFolder, h1, h2] using hx
          rcases mem_fcPaths_addSubFolder.mp hx' with h | rfl | h
          · exact Or.inl h
          · exact Or.inr ⟨(c, n, FSKind.dirK), hdirslot, rfl, rfl⟩
          · rw [fcPaths_empty] at h
            cases h
        · intro p hp
          have hp' : p ∈ mapKeys (mapSet
              ((if (cfg.passDirFilter (joinComps c ++ n)).1 = true then
                  { st with itemsScanned := st.itemsScanned + 1 } else st).failedItemReads)
              (joinComps c ++ n)
              (recursionErrorMsg (displayPathOf cfg (joinComps c ++ n)))) := by
            simpa [traverseEntry, onFolder, h1, h2, reportItemError, acbReportError] using hp
          rw [scanIf_failedItemReads] at hp'
          rcases mem_mapKeys_mapSet hp' with h | rfl
          · exact Or.inl h
          · exact Or.inr ⟨(c, n, FSKind.dirK), hdirslot, rfl, Or.inr rfl⟩
        · intro p hp
          refine Or.inl ?_
          have hp' : p ∈ mapKeys
              ((if (cfg.passDirFilter (joinComps c ++ n)).1 = true then
                  { st with itemsScanned := st.itemsScanned + 1 } else st).failedDirReads) := by
            simpa [traverseEntry, onFolder, h1, h2, reportItemError, acbReportError] using hp
          rw [scanIf_failedDirReads] at hp'
          exact hp'
      · cases enumErr with
        | some msg =>
          refine ⟨?_, ?_, ?_⟩
          · intro x hx
            have hx' : x ∈ fcPaths (joinComps c)
                (acc.addSubFolder n sym FolderContainer.empty) := by
              simpa [traverseEntry, onFolder, h1, h2] using hx
            rcases mem_fcPaths_addSubFolder.mp hx' with h | rfl | h
            · exact Or.inl h
            · exact Or.inr ⟨(c, n, FSKind.dirK), hdirslot, rfl, rfl⟩
            · rw [fcPaths_empty] at h
              cases h
          · intro p hp
            refine Or.inl ?_
            have hp' : p ∈ mapKeys
                ((if (cfg.passDirFilter (joinComps c ++ n)).1 = true then
                    { st with itemsScanned := st.itemsScanned + 1 } else st).failedItemReads) := by
              simpa [traverseEntry, onFolder, h1, h2, reportDirError, acbReportError] using hp
            rw [scanIf_failedItemReads] at hp'
            exact hp'
          · intro p hp
            have hp' : p ∈ mapKeys (mapSet
                ((if (cfg.passDirFilter (joinComps c ++ n)).1 = true then
                    { st with itemsScanned := st.itemsScanned + 1 } else st).failedDirReads)
                (beforeLastSep (joinComps c ++ n ++ sepS)) msg) := by
              simpa [traverseEntry, onFolder, h1, h2, reportDirError, acbReportError] using hp
            rw [scanIf_failedDirReads] at hp'
            rcases mem_mapKeys_mapSet hp' with h | rfl
            · exact Or.inl h
            · exact Or.inr ⟨(c, n, FSKind.dirK), hdirslot,
                beforeLastSep_append_sep (joinComps c ++ n), rfl⟩
        | none =>
          have hrw : joinComps c ++ n ++ sepS = joinComps (c ++ [n]) :=
            (joinComps_append_single c n).symm
          obtain ⟨ha2, hb2, hc2⟩ := travEntries_slots cfg (c ++ [n]) (level + 1) content
              FolderContainer.empty
              (if (cfg.passDirFilter (joinComps c ++ n)).1 = true then
                 { st with itemsScanned := st.itemsScanned + 1 } else st)
          have hlift : ∀ s, s ∈ fsSlots (c ++ [n]) content →
              s ∈ fsSlotsEntry c (FSEntry.folder n sym none content) := by
            intro s hs
            rw [show fsSlotsEntry c (FSEntry.folder n sym none content) =
                (c, n, FSKind.dirK) :: fsSlots (c ++ [n]) content from rfl]
            exact List.mem_cons_of_mem _ hs
          refine ⟨?_, ?_, ?_⟩
          · intro x hx
            have hx' : x ∈ fcPaths (joinComps c) (acc.addSubFolder n sym
                (traverseEntries cfg (joinComps c ++ n ++ sepS) (level + 1) content
                  FolderContainer.empty
                  (if (cfg.passDirFilter (joinComps c ++ n)).1 = true then
                     { st with itemsScanned := st.itemsScanned + 1 } else st)).1) := by
              simpa [traverseEntry, onFolder, h1, h2] using hx
            rcases mem_fcPaths_addSubFolder.mp hx' with h | rfl | h
            · exact Or.inl h
            · exact Or.inr ⟨(c, n, FSKind.dirK), hdirslot, rfl, rfl⟩
            · rw [hrw] at h
              rcases ha2 x h with h0 | ⟨s, hs, hp1, hp2⟩
              · rw [fcPaths_empty] at h0
                cases h0
              · exact Or.inr ⟨s, hlift s hs, hp1, hp2⟩
          · intro p hp
            have hp' : p ∈ mapKeys (traverseEntries cfg (joinComps c ++ n ++ sepS) (level + 1)
                content FolderContainer.empty
                (if (cfg.passDirFilter (joinComps c ++ n)).1 = true then
                   { st with itemsScanned := st.itemsScanned + 1 } else st)).2.failedItemReads := by
              simpa [traverseEntry, onFolder, h1, h2] using hp
            rw [hrw] at hp'
            rcases hb2 p hp' with h0 | ⟨s, hs, hp1, hp2⟩
            · rw [scanIf_failedItemReads] at h0
              exact Or.inl h0
            · exact Or.inr ⟨s, hlift s hs, hp1, hp2⟩
          · intro p hp
            have hp' : p ∈ mapKeys (traverseEntries cfg (joinComps c ++ n ++ sepS) (level + 1)
                content FolderContainer.empty
                (if (cfg.passDirFilter (joinComps c ++ n)).1 = true then
                   { st with itemsScanned := st.itemsScanned + 1 } else st)).2.failedDirReads := by
              simpa [traverseEntry, onFolder, h1, h2] using hp
            rw [hrw] at hp'
            rcases hc2 p hp' with h0 | ⟨s, hs, hp1, hp2⟩
            · rw [scanIf_failedDirReads] at h0
              exact Or.inl h0
            · exact Or.inr ⟨s, hlift s hs, hp1, hp2⟩

end

/-- C3 counterexample: a sub-folder whose enumeration fails is recorded as a
successful folder node in the tree *and* keyed in failedFolderReads under the
same relative path — so the claim is false for folder entries. -/
theorem error_exclusivity_cx :
    ("a", RecKind.dir) ∈ fcPaths "" (scanBase cfgAll fsEnumFail).1.folderCont ∧
    "a" ∈ mapKeys (scanBase cfgAll fsEnumFail).1.failedFolderReads :=
  ⟨by decide, by decide⟩

/-- C3 (amended): in a DirectoryValue produced from a well-formed enumeration,
no relative path recorded as a successful *file or symlink* entry also appears
as a key of failedFolderReads or failedItemReads; folder nodes are exempt
(a folder node coexists with its own enumeration-failure or
recursion-depth entry). -/
theorem error_exclusivity_items (cfg : TraverserConfig) (base : FSBase)
    (hwf : wfEntries base.entries = true) (p : String) (k : RecKind)
    (hk : k = RecKind.file ∨ k = RecKind.link)
    (hp : (p, k) ∈ fcPaths "" (scanBase cfg base).1.folderCont) :
    p ∉ mapKeys (scanBase cfg base).1.failedFolderReads ∧
    p ∉ mapKeys (scanBase cfg base).1.failedItemReads := by
  cases hroot : base.rootEnumError with
  | some msg =>
    rw [show (scanBase cfg base).1.folderCont = FolderContainer.empty from by
      simp [scanBase, hroot]] at hp
    rw [fcPaths_empty] at hp
    cases hp
  | none =>
    obtain ⟨ha, hb, hc⟩ := travEntries_slots cfg [] 0 base.entries
        FolderContainer.empty ScanState.empty
    have hnod := fsSlots_paths_nodup [] base.entries (by intro x hx; cases hx) hwf
    have hp1 : (p, k) ∈ fcPaths (joinComps []) (traverseEntries cfg (joinComps []) 0
        base.entries FolderContainer.empty ScanState.empty).1 := by
      rw [show (scanBase cfg base).1.folderCont =
          (traverseEntries cfg "" 0 base.entries FolderContainer.empty ScanState.empty).1 from by
        simp [scanBase, hroot]] at hp
      exact hp
    rcases ha (p, k) hp1 with h0 | ⟨s1, hs1, hpath1, hkind1⟩
    · rw [fcPaths_empty] at h0
      cases h0
    have hpath1' : p = slotPath s1 := hpath1
    have hkind1' : recOfFs s1.2.2 = some k := hkind1
    constructor
    · intro hmem
      have hmem' : p ∈ mapKeys (traverseEntries cfg (joinComps []) 0 base.entries
          FolderContainer.empty ScanState.empty).2.failedDirReads := by
        rw [show (scanBase cfg base).1.failedFolderReads = (traverseEntries cfg "" 0
            base.entries FolderContainer.empty ScanState.empty).2.failedDirReads from by
          simp [scanBase, hroot]] at hmem
        exact hmem
      rcases hc p hmem' with h0 | ⟨s2, hs2, hpath2, hkind2⟩
      · simp [ScanState.empty, mapKeys] at h0
      · have hss : s1 = s2 := List.inj_on_of_nodup_map hnod hs1 hs2
          (by rw [← hpath1']; exact hpath2)
        have hcontra : recOfFs FSKind.dirK = some k := by
          rw [← hkind2, ← hss]
          exact hkind1'
        rcases hk with rfl | rfl <;> simp [recOfFs] at hcontra
    · intro hmem
      have hmem' : p ∈ mapKeys (traverseEntries cfg (joinComps []) 0 base.entries
          FolderContainer.empty ScanState.empty).2.failedItemReads := by
        rw [show (scanBase cfg base).1.failedItemReads = (traverseEntries cfg "" 0
            base.entries FolderContainer.empty ScanState.empty).2.failedItemReads from by
          simp [scanBase, hroot]] at hmem
        exact hmem
      rcases hb p hmem' with h0 | ⟨s2, hs2, hpath2, hkind2⟩
      · simp [ScanState.empty, mapKeys] at h0
      · have hss : s1 = s2 := List.inj_on_of_nodup_map hnod hs1 hs2
          (by rw [← hpath1']; exact hpath2)
        rcases hkind2 with hk2 | hk2
        · have hcontra : recOfFs FSKind.errK = some k := by
            rw [← hk2, ← hss]
            exact hkind1'
          simp [recOfFs] at hcontra
        · have hcontra : recOfFs FSKind.dirK = some k := by
            rw [← hk2, ← hss]
            exact hkind1'
          rcases hk with rfl | rfl <;> simp [recOfFs] at hcontra

/-- C3 witness: a recorded file of a concrete well-formed scan appears in
neither error map. -/
theorem error_exclusivity_items_witness :
    wfEntries fsMixed.entries = true ∧
    (RecKind.file = RecKind.file ∨ RecKind.file = RecKind.link) ∧
    ("a.txt", RecKind.file) ∈ fcPaths "" (scanBase cfgAll fsMixed).1.folderCont ∧
    ("a.txt" ∉ mapKeys (scanBase cfgAll fsMixed).1.failedFolderReads ∧
     "a.txt" ∉ mapKeys (scanBase cfgAll fsMixed).1.failedItemReads) :=
  ⟨by decide, Or.inl rfl, by decide,
   error_exclusivity_items cfgAll fsMixed (by decide) "a.txt" RecKind.file
     (Or.inl rfl) (by decide)⟩

end FFS
